import Mathlib

/-!
Verification development for the fig4ai CLI tool.

The repository walks a Figma document tree extracting design tokens
(`bin/index.js`: processDesignTokens, rgbToHex, parseFigmaUrl,
generateComponentYAML, processComponentInstances) and orchestrates LLM
calls with retry, chunking and provider fallback
(`src/generators/pseudo-generator.js`: AIWrapper.callAI,
exponentialBackoff, generatePseudoComponent, generatePseudoFrame,
generateAllPseudoCode).

Each JavaScript function named above is embedded as an executable Lean
definition below, translated line by line from the source.  JavaScript
builtins (String.prototype.includes, String.prototype.toLowerCase,
Number.prototype.toString(16), JSON.stringify, the URL class,
decodeURIComponent, URLSearchParams) are modelled by small executable
definitions that reproduce their behaviour on the ASCII inputs exercised
here; each such model is marked in its doc comment.  Floating point
arithmetic appearing in the source (content.length / 4, channel * 255)
is modelled with exact rationals, which agrees with IEEE doubles on the
integer-valued inputs that occur.
-/

namespace Fig4ai

/-! ## JavaScript string builtins (models) -/

/-- Model of the JavaScript substring test `haystack.includes(needle)`:
`needle` occurs contiguously inside `haystack`.  Implemented over
character lists with an executable scan. -/
def listStartsWith : List Char → List Char → Bool
  | [], _ => true
  | _ :: _, [] => false
  | a :: as, b :: bs => a == b && listStartsWith as bs

def listContainsSeq (pat : List Char) : List Char → Bool
  | [] => listStartsWith pat []
  | b :: bs => listStartsWith pat (b :: bs) || listContainsSeq pat bs

def containsStr (s pat : String) : Bool :=
  listContainsSeq pat.data s.data

/-- Model of the JavaScript builtin `String.prototype.toLowerCase` for
ASCII characters (the only ones appearing in the classification rules). -/
def charToLower (c : Char) : Char :=
  if 'A' ≤ c ∧ c ≤ 'Z' then Char.ofNat (c.toNat + 32) else c

def jsToLowerCase (s : String) : String :=
  String.mk (s.data.map charToLower)

/-- Model of the JavaScript test `url.startsWith(pre)`. -/
def jsStartsWith (s pre : String) : Bool :=
  listStartsWith pre.data s.data

/-! ## Color conversion (`bin/index.js` lines 246-253) -/

/-- Hexadecimal digit character, as produced by the JavaScript builtin
`Number.prototype.toString(16)` (digits 0-9 then lowercase a-f). -/
def hexChar (n : Nat) : Char :=
  if n < 10 then Char.ofNat (48 + n) else Char.ofNat (87 + n)

/-- Digit list of the base-16 representation of `n`, most significant
first; fuel-based structural recursion so that the kernel can evaluate
it.  Models the builtin `n.toString(16)` for natural `n`. -/
def hexDigitsAux : Nat → Nat → List Char
  | 0, _ => []
  | fuel + 1, n =>
    if n < 16 then [hexChar n]
    else hexDigitsAux fuel (n / 16) ++ [hexChar (n % 16)]

def natToHexString (n : Nat) : String :=
  String.mk (hexDigitsAux (n + 1) n)

/-- The inner helper `toHex` of `rgbToHex`: hex string of one channel,
zero-padded on the left to two digits. -/
def toHex (n : Nat) : String :=
  let hex := natToHexString n
  if hex.length = 1 then "0" ++ hex else hex

/-- `rgbToHex(r, g, b)` from `bin/index.js` lines 246-253. -/
def rgbToHex (r g b : Nat) : String :=
  "#" ++ toHex r ++ toHex g ++ toHex b

/-- Value of a hexadecimal digit character, accepting both cases;
decoder side of the round-trip stated in the spec. -/
def hexVal (c : Char) : Option Nat :=
  if '0' ≤ c ∧ c ≤ '9' then some (c.toNat - 48)
  else if 'a' ≤ c ∧ c ≤ 'f' then some (c.toNat - 87)
  else if 'A' ≤ c ∧ c ≤ 'F' then some (c.toNat - 55)
  else none

/-- Modelled from the spec: decoder `hexToRgbString` that reads a
`#rrggbb` string back into the three integer channels.  The repository
has no such function; the spec round-trip property supplies its
contract. -/
def decodeHexColor (s : String) : Option (Nat × Nat × Nat) :=
  match s.data with
  | ['#', r1, r2, g1, g2, b1, b2] =>
    match hexVal r1, hexVal r2, hexVal g1, hexVal g2, hexVal b1, hexVal b2 with
    | some a, some b, some c, some d, some e, some f =>
      some (16 * a + b, 16 * c + d, 16 * e + f)
    | _, _, _, _, _, _ => none
  | _ => none

/-- Rounding `Math.round(q)` of the JavaScript runtime on a nonnegative
rational: round half away from zero, i.e. floor of `q + 1/2`, then
truncated to a natural number (all uses in the source apply it to
values in `[0, 255]`). -/
def jsRoundNat (q : ℚ) : Nat :=
  (Int.floor (q + 1 / 2)).toNat

/-! ## Design tree data model

The attributes of the opaque Figma API nodes that `processDesignTokens`
(`bin/index.js` lines 74-244) actually reads.  Node `type` is kept as a
string exactly as in the JSON payload.  Numeric attributes of the API
(float channels in `[0,1]`, spacing, font sizes) are modelled as exact
rationals. -/

structure Paint where
  type : String
  r : ℚ
  g : ℚ
  b : ℚ
  a : ℚ
deriving DecidableEq, Repr

structure FigmaEffect where
  type : String
deriving DecidableEq, Repr

structure RawTextStyle where
  fontFamily : Option String := none
  fontWeight : Option ℚ := none
  fontSize : Option ℚ := none
  lineHeightPx : Option ℚ := none
  lineHeight : Option ℚ := none
  letterSpacing : Option ℚ := none
  textCase : Option String := none
  textDecoration : Option String := none
  textAlignHorizontal : Option String := none
  paragraphSpacing : Option ℚ := none
deriving DecidableEq, Repr

/-- A style-reference map, the JSON object held by a node `styles`
attribute (style kind to style id). -/
abbrev StylesMap := List (String × String)

inductive DesignNode where
  | mk
    (id : String)
    (name : String)
    (type : String)
    (description : Option String)
    (characters : Option String)
    (style : Option RawTextStyle)
    (fills : List Paint)
    (effects : List FigmaEffect)
    (styles : Option StylesMap)
    (layoutMode : Option String)
    (itemSpacing : Option ℚ)
    (paddingTop : Option ℚ)
    (paddingRight : Option ℚ)
    (paddingBottom : Option ℚ)
    (paddingLeft : Option ℚ)
    (children : List DesignNode)
deriving Repr

def DesignNode.name : DesignNode → String
  | .mk _ n _ _ _ _ _ _ _ _ _ _ _ _ _ _ => n

def DesignNode.children : DesignNode → List DesignNode
  | .mk _ _ _ _ _ _ _ _ _ _ _ _ _ _ _ c => c

/-! ## TokenSet: the accumulator built by processDesignTokens -/

/-- The `style` payload stored inside a typography entry
(`bin/index.js` lines 121-132). -/
structure TextStylePayload where
  fontFamily : Option String
  fontWeight : Option ℚ
  fontSize : Option ℚ
  lineHeight : Option ℚ
  letterSpacing : Option ℚ
  textCase : Option String
  textDecoration : Option String
  textAlignHorizontal : Option String
  paragraphSpacing : Option ℚ
  fills : List Paint
deriving DecidableEq, Repr

structure TextStyleToken where
  id : String
  name : String
  content : Option String
  style : TextStylePayload
deriving DecidableEq, Repr

structure ColorRGBA where
  r : Nat
  g : Nat
  b : Nat
  a : ℚ
deriving DecidableEq, Repr

structure ColorToken where
  id : String
  name : String
  color : ColorRGBA
  hex : String
  opacity : ℚ
deriving DecidableEq, Repr

structure EffectToken where
  id : String
  name : String
  type : String
  value : FigmaEffect
deriving DecidableEq, Repr

structure PaddingRec where
  top : Option ℚ
  right : Option ℚ
  bottom : Option ℚ
  left : Option ℚ
deriving DecidableEq, Repr

structure SpacingToken where
  id : String
  name : String
  type : String
  itemSpacing : Option ℚ
  padding : PaddingRec
deriving DecidableEq, Repr

structure ComponentToken where
  id : String
  name : String
  type : String
  description : Option String
  styles : Option StylesMap
deriving DecidableEq, Repr

structure StyleRecord where
  id : String
  name : String
  styles : StylesMap
deriving DecidableEq, Repr

structure Headings where
  h1 : List TextStyleToken := []
  h2 : List TextStyleToken := []
  h3 : List TextStyleToken := []
  h4 : List TextStyleToken := []
  h5 : List TextStyleToken := []
  h6 : List TextStyleToken := []
deriving DecidableEq, Repr

structure Typography where
  headings : Headings := {}
  body : List TextStyleToken := []
  other : List TextStyleToken := []
deriving DecidableEq, Repr

structure Colors where
  primary : List ColorToken := []
  secondary : List ColorToken := []
  text : List ColorToken := []
  background : List ColorToken := []
  other : List ColorToken := []
deriving DecidableEq, Repr

structure EffectBuckets where
  shadows : List EffectToken := []
  blurs : List EffectToken := []
  other : List EffectToken := []
deriving DecidableEq, Repr

structure TokenSet where
  typography : Typography := {}
  colors : Colors := {}
  spacing : List SpacingToken := []
  effects : EffectBuckets := {}
  components : List ComponentToken := []
  styles : List StyleRecord := []
deriving DecidableEq, Repr

/-- The default (empty) accumulator, the default parameter value of
`processDesignTokens`. -/
def emptyTokens : TokenSet := {}

/-! ## processDesignTokens (`bin/index.js` lines 74-244) -/

/-- Leftmost match of the regex `h([1-6])`: scan for the first
character `h` immediately followed by a digit `1`-`6` and return that
digit.  `none` exactly when `nameLower.match(/h[1-6]/)` is null. -/
def findHeadingLevel : List Char → Option Nat
  | c1 :: c2 :: rest =>
    if c1 = 'h' ∧ '1' ≤ c2 ∧ c2 ≤ '6' then some (c2.toNat - 48)
    else findHeadingLevel (c2 :: rest)
  | _ => none

/-- Push into `tokens.typography.headings[h(level)]`; the regex
guarantees `level` is between 1 and 6. -/
def pushHeading (t : Typography) (lvl : Nat) (ts : TextStyleToken) : Typography :=
  match lvl with
  | 1 => { t with headings := { t.headings with h1 := t.headings.h1 ++ [ts] } }
  | 2 => { t with headings := { t.headings with h2 := t.headings.h2 ++ [ts] } }
  | 3 => { t with headings := { t.headings with h3 := t.headings.h3 ++ [ts] } }
  | 4 => { t with headings := { t.headings with h4 := t.headings.h4 ++ [ts] } }
  | 5 => { t with headings := { t.headings with h5 := t.headings.h5 ++ [ts] } }
  | 6 => { t with headings := { t.headings with h6 := t.headings.h6 ++ [ts] } }
  | _ => t

/-- The JavaScript `a || b` fallback on optional numbers: `0` and
`undefined` are falsy (`node.style?.lineHeightPx || node.style?.lineHeight`). -/
def jsOrNum : Option ℚ → Option ℚ → Option ℚ
  | some x, b => if x = 0 then b else some x
  | none, b => b

/-- The JavaScript `s || null` fallback on an optional string: the
empty string is falsy (`description: node.description || null`). -/
def jsStrOrNull : Option String → Option String
  | some s => if s = "" then none else some s
  | none => none

/-- The `style:` object literal of the typography entry
(`bin/index.js` lines 121-132). -/
def mkTextStylePayload (style : Option RawTextStyle) (fills : List Paint) : TextStylePayload :=
  match style with
  | some st =>
    ⟨st.fontFamily, st.fontWeight, st.fontSize,
     jsOrNum st.lineHeightPx st.lineHeight,
     st.letterSpacing, st.textCase, st.textDecoration,
     st.textAlignHorizontal, st.paragraphSpacing, fills⟩
  | none => ⟨none, none, none, none, none, none, none, none, none, fills⟩

/-- The `colorToken` object literal (`bin/index.js` lines 154-169):
channels scaled by 255 and rounded, hex via `rgbToHex`. -/
def mkColorToken (id fullName : String) (fill : Paint) : ColorToken :=
  let r := jsRoundNat (fill.r * 255)
  let g := jsRoundNat (fill.g * 255)
  let b := jsRoundNat (fill.b * 255)
  ⟨id, fullName, ⟨r, g, b, fill.a⟩, rgbToHex r g b, fill.a⟩

/-- Body of the `node.fills.forEach(fill => ...)` loop
(`bin/index.js` lines 152-184): SOLID fills become color tokens,
bucketed by the if-chain on the lowercased own name. -/
def pushColorFill (id fullName nameLower : String) (acc : TokenSet) (fill : Paint) : TokenSet :=
  if fill.type = "SOLID" then
    let colorToken := mkColorToken id fullName fill
    if containsStr nameLower "primary" then
      { acc with colors := { acc.colors with primary := acc.colors.primary ++ [colorToken] } }
    else if containsStr nameLower "secondary" then
      { acc with colors := { acc.colors with secondary := acc.colors.secondary ++ [colorToken] } }
    else if containsStr nameLower "text" || containsStr nameLower "typography" then
      { acc with colors := { acc.colors with text := acc.colors.text ++ [colorToken] } }
    else if containsStr nameLower "background" || containsStr nameLower "bg" then
      { acc with colors := { acc.colors with background := acc.colors.background ++ [colorToken] } }
    else
      { acc with colors := { acc.colors with other := acc.colors.other ++ [colorToken] } }
  else acc

/-- Body of the `node.effects.forEach(effect => ...)` loop
(`bin/index.js` lines 188-205). -/
def pushEffect (id fullName : String) (acc : TokenSet) (effect : FigmaEffect) : TokenSet :=
  let effectToken : EffectToken := ⟨id, fullName, effect.type, effect⟩
  if effect.type = "DROP_SHADOW" ∨ effect.type = "INNER_SHADOW" then
    { acc with effects := { acc.effects with shadows := acc.effects.shadows ++ [effectToken] } }
  else if effect.type = "LAYER_BLUR" ∨ effect.type = "BACKGROUND_BLUR" then
    { acc with effects := { acc.effects with blurs := acc.effects.blurs ++ [effectToken] } }
  else
    { acc with effects := { acc.effects with other := acc.effects.other ++ [effectToken] } }

/-- Names of the five color buckets, used to state the bucketing rule. -/
inductive ColorBucket where
  | primary
  | secondary
  | text
  | background
  | other
deriving DecidableEq, Repr

/-- Modelled from the spec: the first-matching-rule bucket choice for a
solid fill, as the spec words it — primary, else secondary, else
text/typography, else background/bg, else other — on the lowercased
unqualified node name. -/
def specColorBucket (nameLower : String) : ColorBucket :=
  if containsStr nameLower "primary" then .primary
  else if containsStr nameLower "secondary" then .secondary
  else if containsStr nameLower "text" || containsStr nameLower "typography" then .text
  else if containsStr nameLower "background" || containsStr nameLower "bg" then .background
  else .other

/-- Projection of one named bucket out of the colors record. -/
def bucketOf (c : Colors) : ColorBucket → List ColorToken
  | .primary => c.primary
  | .secondary => c.secondary
  | .text => c.text
  | .background => c.background
  | .other => c.other

mutual

/-- Embedding of `processDesignTokens(node, tokens, parentName)`
(`bin/index.js` lines 74-244): switch on `node.type`, then the
unconditional `styles` record push, then recursion into children in
array order. -/
def processDesignTokens (node : DesignNode) (tokens : TokenSet)
    (parentName : String) : TokenSet :=
  match node with
  | .mk id name ty descr chars style fills effects styles lm isp pt pr pb pl children =>
    let fullName := if parentName = "" then name else parentName ++ "/" ++ name
    let nameLower := jsToLowerCase name
    let t1 : TokenSet :=
      if ty = "COMPONENT" ∨ ty = "COMPONENT_SET" then
        { tokens with components := tokens.components ++ [⟨id, fullName, ty, jsStrOrNull descr, styles⟩] }
      else if ty = "TEXT" then
        let textStyle : TextStyleToken := ⟨id, fullName, chars, mkTextStylePayload style fills⟩
        if containsStr nameLower "heading" || (findHeadingLevel nameLower.data).isSome then
          match findHeadingLevel nameLower.data with
          | some lvl => { tokens with typography := pushHeading tokens.typography lvl textStyle }
          | none => tokens
        else if containsStr nameLower "body" || containsStr nameLower "text"
            || containsStr nameLower "paragraph" then
          { tokens with typography :=
              { tokens.typography with body := tokens.typography.body ++ [textStyle] } }
        else
          { tokens with typography :=
              { tokens.typography with other := tokens.typography.other ++ [textStyle] } }
      else if ty = "RECTANGLE" ∨ ty = "VECTOR" ∨ ty = "ELLIPSE" then
        let tFills := fills.foldl (pushColorFill id fullName nameLower) tokens
        effects.foldl (pushEffect id fullName) tFills
      else if ty = "FRAME" then
        match lm with
        | some lmv =>
          if lmv = "VERTICAL" ∨ lmv = "HORIZONTAL" then
            { tokens with spacing := tokens.spacing ++ [⟨id, fullName, lmv, isp, ⟨pt, pr, pb, pl⟩⟩] }
          else tokens
        | none => tokens
      else tokens
    let t2 : TokenSet :=
      match styles with
      | some st => { t1 with styles := t1.styles ++ [⟨id, fullName, st⟩] }
      | none => t1
    processChildren children t2 fullName

/-- The `node.children.forEach(...)` recursion at the end of
`processDesignTokens`, threading the accumulator left to right. -/
def processChildren (cs : List DesignNode) (tokens : TokenSet)
    (parentName : String) : TokenSet :=
  match cs with
  | [] => tokens
  | c :: rest => processChildren rest (processDesignTokens c tokens parentName) parentName

end

/-! ## JSON values and JSON.stringify (model of the builtin) -/

inductive Json where
  | null
  | bool (b : Bool)
  | num (n : Int)
  | str (s : String)
  | arr (xs : List Json)
  | obj (fields : List (String × Json))
deriving Repr

/-- Decimal digit list of a natural number, fuel based so the kernel
can evaluate it. -/
def decDigitsAux : Nat → Nat → List Char
  | 0, _ => []
  | fuel + 1, n =>
    if n < 10 then [Char.ofNat (48 + n)]
    else decDigitsAux fuel (n / 10) ++ [Char.ofNat (48 + n % 10)]

def intToString (i : Int) : String :=
  if i < 0 then "-" ++ String.mk (decDigitsAux (i.natAbs + 1) i.natAbs)
  else String.mk (decDigitsAux (i.natAbs + 1) i.natAbs)

/-- JSON string quoting with the escapes needed here. -/
def jsonQuote (s : String) : String :=
  "\"" ++ String.join (s.data.map (fun c =>
    if c = '"' then "\\\""
    else if c = '\\' then "\\\\"
    else if c = '\n' then "\\n"
    else String.mk [c])) ++ "\""

def spacesStr (n : Nat) : String := String.mk (List.replicate n ' ')

mutual

/-- Model of the builtin `JSON.stringify(v, null, 2)` used by the
raw-JSON fallbacks: two-space indented pretty printing, entries in
insertion order.  `indent` is the current indentation level. -/
def jsonStringify (v : Json) (indent : Nat) : String :=
  match v with
  | .null => "null"
  | .bool true => "true"
  | .bool false => "false"
  | .num n => intToString n
  | .str s => jsonQuote s
  | .arr [] => "[]"
  | .arr (x :: xs) =>
    "[\n" ++ jsonArrItems (x :: xs) (indent + 2) ++ "\n" ++ spacesStr indent ++ "]"
  | .obj [] => "\x7b\x7d"
  | .obj (f :: fs) =>
    "\x7b\n" ++ jsonObjItems (f :: fs) (indent + 2) ++ "\n" ++ spacesStr indent ++ "\x7d"

def jsonArrItems : List Json → Nat → String
  | [], _ => ""
  | [x], ind => spacesStr ind ++ jsonStringify x ind
  | x :: y :: rest, ind =>
    spacesStr ind ++ jsonStringify x ind ++ ",\n" ++ jsonArrItems (y :: rest) ind

def jsonObjItems : List (String × Json) → Nat → String
  | [], _ => ""
  | [(k, v)], ind => spacesStr ind ++ jsonQuote k ++ ": " ++ jsonStringify v ind
  | (k, v) :: y :: rest, ind =>
    spacesStr ind ++ jsonQuote k ++ ": " ++ jsonStringify v ind ++ ",\n"
      ++ jsonObjItems (y :: rest) ind

end

/-! ## Instance, canvas and frame records

`processComponentInstances` (`bin/index.js` lines 470-500) collects
every INSTANCE node into a record; `generateComponentYAML` reads its
`id`, `name` and `componentId`, and the pseudo-code fallbacks serialize
the whole record.  The full record is carried here as its JSON value
`raw` next to the three fields the manifest logic reads, because only
its serialization is consumed downstream. -/

structure InstanceRecord where
  id : String
  name : String
  componentId : String
  raw : Json

/-- A direct child of a canvas as consumed by `generateAllPseudoCode`
(`src/generators/pseudo-generator.js` lines 707-721): only its `type`
selects frames, `id`/`name` key and label the result, and the whole
node is serialized by the fallback. -/
structure FrameChild where
  id : String
  name : String
  type : String
  raw : Json

structure CanvasNode where
  name : String
  children : List FrameChild

/-! ## JavaScript Map model (insertion order, set replaces in place) -/

def mapSet {α : Type} (m : List (String × α)) (k : String) (v : α) : List (String × α) :=
  if m.any (fun p => p.1 == k) then
    m.map (fun p => if p.1 == k then (k, v) else p)
  else m ++ [(k, v)]

def mapLookup {α : Type} (m : List (String × α)) (k : String) : Option α :=
  (m.find? (fun p => p.1 == k)).map (·.2)

/-! ## generateComponentYAML (`bin/index.js` lines 502-544) -/

structure YamlComponentEntry where
  name : String
  type : String
  description : Option String
  instances : List (String × String)
deriving DecidableEq, Repr

/-- Body of the `instances.forEach(instance => ...)` loop of
`generateComponentYAML` (lines 515-522): push `(id, name)` onto the
entry of the matching component, drop the instance when no component
has its `componentId`. -/
def linkInstance (m : List (String × YamlComponentEntry))
    (inst : InstanceRecord) : List (String × YamlComponentEntry) :=
  match mapLookup m inst.componentId with
  | some entry =>
    mapSet m inst.componentId
      { entry with instances := entry.instances ++ [(inst.id, inst.name)] }
  | none => m

/-- The two passes filling `componentMap`: seed one entry per component,
then link every instance whose `componentId` is a key of the map. -/
def buildComponentMap (components : List ComponentToken)
    (instances : List InstanceRecord) : List (String × YamlComponentEntry) :=
  let m0 := components.foldl
    (fun m comp => mapSet m comp.id ⟨comp.name, comp.type, comp.description, []⟩) []
  instances.foldl linkInstance m0

/-- Rendering of one component entry of the YAML-like manifest; the
description line is emitted only when the description is truthy, the
instances block only when at least one instance was linked. -/
def yamlForEntry (key : String) (value : YamlComponentEntry) : String :=
  "  " ++ key ++ ":\n"
    ++ "    name: \"" ++ value.name ++ "\"\n"
    ++ "    type: " ++ value.type ++ "\n"
    ++ (match value.description with
        | some d => "    description: \"" ++ d ++ "\"\n"
        | none => "")
    ++ (match value.instances with
        | [] => ""
        | _ => "    instances:\n" ++ String.join (value.instances.map (fun p =>
            "      - id: " ++ p.1 ++ "\n" ++ "        name: \"" ++ p.2 ++ "\"\n")))
    ++ "\n"

def generateComponentYAML (components : List ComponentToken)
    (instances : List InstanceRecord) : String :=
  let componentMap := buildComponentMap components instances
  "components:\n" ++ String.join (componentMap.map (fun p => yamlForEntry p.1 p.2))

/-! ## AIWrapper.callAI (`src/generators/pseudo-generator.js` lines 44-296)

The network is abstracted by an oracle mapping the attempt counter to
the outcome of the provider call issued in that iteration of the retry
loop; everything else (provider routing, the retry guard, the backoff
arithmetic) is translated from the source.  Each iteration of the
`while` loop issues exactly one provider call event: `claudeFallback`
for the early-return routing branch (lines 64-71), `openaiPrimary` for
the `client instanceof OpenAI` branch (lines 148-279, including its
chunked sub-loop, which only ever calls the OpenAI client and is
modelled separately below), `claudePrimary` for the final branch
(line 282). -/

structure CallOptions where
  chunkSize : Nat := 2000
  baseDelay : Nat := 2000
  maxRetries : Nat := 5
  chunkDelay : Nat := 5000
  maxGPT4Tokens : Nat := 6000
deriving DecidableEq, Repr

def defaultCallOptions : CallOptions := {}

/-- `exponentialBackoff(attempt, baseDelay)` from line 46. -/
def exponentialBackoff (attempt : Nat) (baseDelay : Nat := 2000) : Nat :=
  min (baseDelay * 2 ^ attempt) 120000

inductive ApiResult where
  | success
  | err429
  | errOther
deriving DecidableEq, Repr

inductive ProviderCall where
  | claudeFallback
  | claudePrimary
  | openaiPrimary
deriving DecidableEq, Repr

inductive CallOutcome where
  | ok
  | errorSurfaced
  | fellThrough
deriving DecidableEq, Repr

structure CallTrace where
  calls : List ProviderCall
  retryDelays : List Nat
  outcome : CallOutcome
deriving DecidableEq, Repr

/-- The routing condition of lines 64-67: primary client is OpenAI, the
estimated token count `content.length / 4` exceeds the ceiling, a
Claude fallback client exists, and the content carries the frame-data
marker. -/
def usesClaudeFallback (isOpenAI claudeConfigured : Bool) (content : String)
    (opts : CallOptions) : Bool :=
  isOpenAI
    && decide ((content.length : ℚ) / 4 > (opts.maxGPT4Tokens : ℚ))
    && claudeConfigured
    && containsStr content "Complete Frame Data:"

def providerChoice (isOpenAI claudeConfigured : Bool) (content : String)
    (opts : CallOptions) : ProviderCall :=
  if usesClaudeFallback isOpenAI claudeConfigured content opts then .claudeFallback
  else if isOpenAI then .openaiPrimary
  else .claudePrimary

/-- One run of the `while (attempt < options.maxRetries)` loop of
`callAI`, with `fuel = maxRetries - attempt` iterations remaining.  A
429 outcome retries after `exponentialBackoff(attempt, baseDelay)`
computed with the incremented counter (lines 284-293); any other error
surfaces; falling out of the loop returns undefined (`fellThrough`). -/
def callAITrace (opts : CallOptions) (isOpenAI claudeConfigured : Bool)
    (content : String) (oracle : Nat → ApiResult) : Nat → Nat → CallTrace
  | 0, _ => ⟨[], [], .fellThrough⟩
  | fuel + 1, attempt =>
    let p := providerChoice isOpenAI claudeConfigured content opts
    match oracle attempt with
    | .success => ⟨[p], [], .ok⟩
    | .errOther => ⟨[p], [], .errorSurfaced⟩
    | .err429 =>
      if attempt < opts.maxRetries - 1 then
        let rest := callAITrace opts isOpenAI claudeConfigured content oracle fuel (attempt + 1)
        ⟨p :: rest.calls, exponentialBackoff (attempt + 1) opts.baseDelay :: rest.retryDelays,
         rest.outcome⟩
      else ⟨[p], [], .errorSurfaced⟩

def callAI (opts : CallOptions) (isOpenAI claudeConfigured : Bool)
    (content : String) (oracle : Nat → ApiResult) : CallTrace :=
  callAITrace opts isOpenAI claudeConfigured content oracle opts.maxRetries 0

/-! ## The chunked-frame sub-loop of callAI (lines 193-240)

State of `while (currentIndex < chunks.length)`: the chunk cursor, the
shared `attempt` counter, and how many API calls were issued so far
(the oracle index).  On a 429 the counter is incremented and the loop
sleeps `exponentialBackoff(attempt, options.baseDelay * 2)` before
retrying the same chunk; no retry ceiling is consulted.  The fixed
`chunkDelay` pause between successive chunks (line 198) is not a retry
and is not modelled. -/

structure ChunkState where
  currentIndex : Nat
  attempt : Nat
  callsMade : Nat
deriving DecidableEq, Repr

inductive ChunkStepResult where
  | running (s : ChunkState) (sleptDelay : Option Nat)
  | finished (s : ChunkState)
  | threw (s : ChunkState)
deriving DecidableEq, Repr

def chunkLoopStep (numChunks : Nat) (opts : CallOptions) (oracle : Nat → ApiResult)
    (s : ChunkState) : ChunkStepResult :=
  if s.currentIndex ≥ numChunks then .finished s
  else
    match oracle s.callsMade with
    | .success => .running ⟨s.currentIndex + 1, s.attempt, s.callsMade + 1⟩ none
    | .err429 =>
      .running ⟨s.currentIndex, s.attempt + 1, s.callsMade + 1⟩
        (some (exponentialBackoff (s.attempt + 1) (opts.baseDelay * 2)))
    | .errOther => .threw s

/-- State after `n` executed iterations of the chunk loop, `none` once
the loop has exited (normally or by throwing). -/
def chunkStateAfter (numChunks : Nat) (opts : CallOptions) (oracle : Nat → ApiResult) :
    Nat → ChunkState → Option ChunkState
  | 0, s => some s
  | n + 1, s =>
    match chunkLoopStep numChunks opts oracle s with
    | .running s2 _ => chunkStateAfter numChunks opts oracle n s2
    | _ => none

/-! ## generatePseudoComponent / generatePseudoFrame / generateAllPseudoCode
(`src/generators/pseudo-generator.js` lines 298-725)

The LLM interaction (prompt text, `AIWrapper.callAI`, `JSON.parse` of
the function-call arguments) is abstracted by an oracle returning
either the parsed structured payload or a thrown error; the AI-disabled
early return, the catch fallback values and the orchestration loops are
translated from the source. -/

inductive LLMResult where
  | parsed (name : String) (pseudoCode : String)
  | thrown (msg : String)

structure ComponentPseudo where
  componentName : String
  pseudoCode : String
deriving DecidableEq, Repr

structure FramePseudo where
  frameName : String
  pseudoCode : String
deriving DecidableEq, Repr

/-- `generatePseudoComponent` (lines 298-547): AI-disabled early return
with a fenced raw-JSON block, otherwise the parsed LLM payload, and on
any thrown error the raw-JSON fallback of lines 540-546. -/
def generatePseudoComponent (hasAI : Bool) (component : ComponentToken)
    (inst : InstanceRecord) (llm : LLMResult) : ComponentPseudo :=
  if !hasAI then
    ⟨component.name,
     "# " ++ component.name ++ "\n```\n" ++ jsonStringify inst.raw 0 ++ "\n```"⟩
  else
    match llm with
    | .parsed n p => ⟨n, p⟩
    | .thrown _ =>
      ⟨component.name, "# " ++ component.name ++ "\n" ++ jsonStringify inst.raw 0⟩

/-- `generatePseudoFrame` (lines 549-675): the AI-disabled early return
and the catch fallback build the same string. -/
def generatePseudoFrame (hasAI : Bool) (frame : FrameChild) (canvas : CanvasNode)
    (llm : LLMResult) : FramePseudo :=
  if !hasAI then
    ⟨frame.name,
     "# " ++ frame.name ++ " (Canvas: " ++ canvas.name ++ ")\n" ++ jsonStringify frame.raw 0⟩
  else
    match llm with
    | .parsed n p => ⟨n, p⟩
    | .thrown _ =>
      ⟨frame.name,
       "# " ++ frame.name ++ " (Canvas: " ++ canvas.name ++ ")\n" ++ jsonStringify frame.raw 0⟩

structure PseudoCodeResult where
  components : List (String × ComponentPseudo)
  frames : List (String × FramePseudo)
  /-- Ids of the components for which generation (LLM call or fallback)
  was actually invoked, in processing order; a model-level log used to
  state that skipped components never reach the generator. -/
  generatedComponents : List String
  /-- Ids of the frames for which generation was invoked, in order. -/
  generatedFrames : List String

/-- One iteration of the `for (const component of components)` loop
(lines 687-700): filter the instances of this component, skip it
entirely when there are none, otherwise generate from the first
instance and store under the component id. -/
def componentGenStep (hasAI : Bool) (instances : List InstanceRecord)
    (oracleC : String → LLMResult)
    (acc : List (String × ComponentPseudo) × List String)
    (component : ComponentToken) : List (String × ComponentPseudo) × List String :=
  let componentInstances := instances.filter (fun i => i.componentId == component.id)
  match componentInstances with
  | [] => acc
  | mainInstance :: _ =>
    let pseudoComponent :=
      generatePseudoComponent hasAI component mainInstance (oracleC component.id)
    (mapSet acc.1 component.id pseudoComponent, acc.2 ++ [component.id])

/-- One iteration of the inner frame loop (lines 711-720). -/
def frameGenStep (hasAI : Bool) (canvas : CanvasNode) (oracleF : String → LLMResult)
    (acc : List (String × FramePseudo) × List String)
    (frame : FrameChild) : List (String × FramePseudo) × List String :=
  let pseudoFrame := generatePseudoFrame hasAI frame canvas (oracleF frame.id)
  (mapSet acc.1 frame.id pseudoFrame, acc.2 ++ [frame.id])

/-- One iteration of the `for (const canvas of figmaData.document.children)`
loop (lines 707-721): process every FRAME child of the canvas. -/
def canvasGenStep (hasAI : Bool) (oracleF : String → LLMResult)
    (acc : List (String × FramePseudo) × List String)
    (canvas : CanvasNode) : List (String × FramePseudo) × List String :=
  (canvas.children.filter (fun c => c.type == "FRAME")).foldl
    (frameGenStep hasAI canvas oracleF) acc

/-- `generateAllPseudoCode` (lines 677-725): components first — a
component whose instance filter is empty is skipped entirely — then
every FRAME child of every canvas.  The oracles are keyed by artifact
id; `generatePseudoComponent`/`generatePseudoFrame` never return a
falsy value, so every processed artifact is stored. -/
def generateAllPseudoCode (hasAI : Bool) (components : List ComponentToken)
    (instances : List InstanceRecord) (canvases : List CanvasNode)
    (oracleC : String → LLMResult) (oracleF : String → LLMResult) : PseudoCodeResult :=
  let compStep := components.foldl (componentGenStep hasAI instances oracleC) ([], [])
  let frameStep := canvases.foldl (canvasGenStep hasAI oracleF) ([], [])
  ⟨compStep.1, frameStep.1, compStep.2, frameStep.2⟩

/-! ## parseFigmaUrl (`bin/index.js` lines 39-72)

The WHATWG `URL` class, `decodeURIComponent` and `URLSearchParams` are
builtins; they are modelled below for the URL shapes this parser is
specified on: `scheme://host/path?query` with ASCII percent escapes, no
userinfo and no port. -/

def splitOnChar (c : Char) : List Char → List (List Char)
  | [] => [[]]
  | x :: xs =>
    let r := splitOnChar c xs
    if x = c then [] :: r
    else
      match r with
      | [] => [[x]]
      | h :: t => (x :: h) :: t

structure UrlObj where
  hostname : String
  pathname : String
  searchRaw : List Char
deriving DecidableEq, Repr

def schemeCharOk (c : Char) : Bool :=
  c.isAlpha || c.isDigit || c == '+' || c == '-' || c == '.'

def authorityEnd (c : Char) : Bool :=
  c == '/' || c == '?' || c == '#'

def pathEnd (c : Char) : Bool :=
  c == '?' || c == '#'

/-- Model of the builtin `new URL(s)` for absolute URLs of the form
`scheme://host[/path][?query][#fragment]`: hostname lowercased, empty
path normalized to `/`, query captured raw.  Returns `none` (the
constructor throws) when there is no `://`, the scheme is not
letter-initial, or the host is empty. -/
def parseURLModel (s : String) : Option UrlObj :=
  let cs := s.data
  let scheme := cs.takeWhile (fun c => !(c == ':'))
  match cs.dropWhile (fun c => !(c == ':')) with
  | c1 :: c2 :: c3 :: rest =>
    if c1 = ':' ∧ c2 = '/' ∧ c3 = '/' then
      if scheme.isEmpty || !(scheme.all schemeCharOk) || !(scheme.headD ' ').isAlpha then none
      else
        let authority := rest.takeWhile (fun c => !(authorityEnd c))
        let after := rest.dropWhile (fun c => !(authorityEnd c))
        if authority.isEmpty then none
        else
          let hostname := String.mk (authority.map charToLower)
          let path := after.takeWhile (fun c => !(pathEnd c))
          let afterPath := after.dropWhile (fun c => !(pathEnd c))
          let pathname := if path.isEmpty then "/" else String.mk path
          let search :=
            match afterPath with
            | q0 :: q => if q0 = '?' then q.takeWhile (fun c => !(c == '#')) else []
            | [] => []
          some ⟨hostname, pathname, search⟩
    else none
  | _ => none

/-- Model of the builtin `decodeURIComponent` for ASCII percent
escapes: `%xy` with `16x+y < 128` decodes to that character, a
malformed or non-ASCII escape throws (`none`), everything else passes
through. -/
def percentDecodeChars : List Char → Option (List Char)
  | [] => some []
  | c :: rest =>
    if c = '%' then
      match rest with
      | a :: b :: rest2 =>
        match hexVal a, hexVal b with
        | some va, some vb =>
          if 16 * va + vb < 128 then
            (percentDecodeChars rest2).map (fun l => Char.ofNat (16 * va + vb) :: l)
          else none
        | _, _ => none
      | _ => none
    else (percentDecodeChars rest).map (fun l => c :: l)

def decodeURIComponent (s : String) : Option String :=
  (percentDecodeChars s.data).map String.mk

/-- Model of the `application/x-www-form-urlencoded` decoding applied
by `URLSearchParams` to keys and values: `+` becomes a space, valid
ASCII `%xy` escapes decode, malformed escapes are kept literally; this
decoder never throws. -/
def formDecodeChars : List Char → List Char
  | [] => []
  | [c] => if c = '+' then [' '] else [c]
  | [c, d] =>
    if c = '+' then ' ' :: formDecodeChars [d]
    else if c = '%' then '%' :: formDecodeChars [d]
    else c :: formDecodeChars [d]
  | c :: a :: b :: rest =>
    if c = '+' then ' ' :: formDecodeChars (a :: b :: rest)
    else if c = '%' then
      match hexVal a, hexVal b with
      | some va, some vb =>
        if 16 * va + vb < 128 then Char.ofNat (16 * va + vb) :: formDecodeChars rest
        else '%' :: formDecodeChars (a :: b :: rest)
      | _, _ => '%' :: formDecodeChars (a :: b :: rest)
    else c :: formDecodeChars (a :: b :: rest)

/-- Split one `key=value` query segment at its first `=`; a segment
with no `=` has the empty value. -/
def splitPair (seg : List Char) : List Char × List Char :=
  (seg.takeWhile (fun c => !(c == '=')),
   match seg.dropWhile (fun c => !(c == '=')) with
   | e0 :: v => if e0 = '=' then v else []
   | [] => [])

/-- The decoded key-value pairs of a query string, in order; empty
segments between `&` are dropped, as `URLSearchParams` does. -/
def searchParamsList (search : List Char) : List (String × String) :=
  ((splitOnChar '&' search).filter (fun seg => !seg.isEmpty)).map (fun seg =>
    let p := splitPair seg
    (String.mk (formDecodeChars p.1), String.mk (formDecodeChars p.2)))

/-- `urlObj.searchParams.get(key)`: decoded value of the first pair
with the given key, `none` when absent. -/
def searchParamsGet (search : List Char) (key : String) : Option String :=
  ((searchParamsList search).find? (fun p => p.1 == key)).map (·.2)

structure FigmaUrlResult where
  type : Option String
  fileId : Option String
  nodeId : Option String
  page : Option String
  viewType : Option String
  title : Option String
  fullPath : String
  originalUrl : String
  params : List (String × String)
deriving DecidableEq, Repr

/-- `parseFigmaUrl(url)` from `bin/index.js` lines 39-72: prepend
`https://` when the string does not start with `http`, parse as a URL,
reject hosts not containing `figma.com`, split the path into nonempty
segments, read `node-id`, `p` and `t` from the query, URL-decode the
optional third segment as the title.  Every throw inside the `try`
(URL constructor, decodeURIComponent) yields the single error value
`Invalid URL format`. -/
def parseFigmaUrl (url : String) : Except String FigmaUrlResult :=
  let urlWithProtocol := if jsStartsWith url "http" then url else "https://" ++ url
  match parseURLModel urlWithProtocol with
  | none => .error "Invalid URL format"
  | some urlObj =>
    if !(containsStr urlObj.hostname "figma.com") then .error "Invalid URL format"
    else
      let pathParts := ((splitOnChar '/' urlObj.pathname.data).filter
        (fun seg => !seg.isEmpty)).map String.mk
      let titleDecoded : Except String (Option String) :=
        match pathParts[2]? with
        | some tl =>
          match decodeURIComponent tl with
          | some d => .ok (some d)
          | none => .error "Invalid URL format"
        | none => .ok none
      match titleDecoded with
      | .error e => .error e
      | .ok title =>
        .ok ⟨pathParts[0]?, pathParts[1]?,
             searchParamsGet urlObj.searchRaw "node-id",
             searchParamsGet urlObj.searchRaw "p",
             searchParamsGet urlObj.searchRaw "t",
             title, urlObj.pathname, url, searchParamsList urlObj.searchRaw⟩

/-! ## Statement-support definitions

Named values and projections used only to state the properties proved
below. -/

/-- Extension of one manifest entry by additional linked instances;
used to state the characterization of the instance-linking pass. -/
def extendEntry (e : YamlComponentEntry) (ps : List (String × String)) : YamlComponentEntry :=
  { e with instances := e.instances ++ ps }

/-- The `(id, name)` pairs contributed to the entry with key `k` by an
instance list. -/
def linkedPairs (instances : List InstanceRecord) (k : String) : List (String × String) :=
  (instances.filter (fun i => i.componentId == k)).map (fun i => (i.id, i.name))

/-- A concrete TEXT node with a small style payload. -/
def sampleTextNode (id name : String) : DesignNode :=
  .mk id name "TEXT" none (some "Sample")
    (some { fontFamily := some "Inter", fontSize := some 24 })
    [] [] none none none none none none none []

/-- The component list of the worked manifest example: one component
with id `A`. -/
def c9Components : List ComponentToken :=
  [⟨"A", "Component A", "COMPONENT", none, none⟩]

/-- The instance list of the worked manifest example: one instance
linked to `A`, one with the dangling component id `Z`. -/
def c9Instances : List InstanceRecord :=
  [⟨"i1", "Inst One", "A", Json.null⟩, ⟨"i2", "Inst Two", "Z", Json.null⟩]

/-- A prompt of 24004 characters containing no frame-data marker; its
estimated token count 6001 exceeds the GPT-4 ceiling of 6000. -/
def bigPlainContent : String := String.mk (List.replicate 24004 'a')

/-- A prompt of 24020 characters that does contain the frame-data
marker; its estimated token count 6005 exceeds the ceiling. -/
def bigFrameContent : String :=
  String.mk ("Complete Frame Data:".data ++ List.replicate 24000 'a')

/-! ## Verified properties -/


/-- C4: for every TEXT node whose name case-insensitively contains "heading" but
yields no digit 1-6 for the heading regex, processDesignTokens leaves the whole
typography record unchanged: the entry is appended to no heading level, not to
body, and not to other. -/
theorem headingName_withoutDigit_noBucket
    (id name : String) (descr chars : Option String) (style : Option RawTextStyle)
    (fills : List Paint) (effects : List FigmaEffect) (styles : Option StylesMap)
    (lm : Option String) (isp pt pr pb pl : Option ℚ)
    (tokens : TokenSet) (parentName : String)
    (hhead : containsStr (jsToLowerCase name) "heading" = true)
    (hnod : findHeadingLevel (jsToLowerCase name).data = none) :
    (processDesignTokens
        (.mk id name "TEXT" descr chars style fills effects styles lm isp pt pr pb pl [])
        tokens parentName).typography = tokens.typography := by
  simp only [processDesignTokens, processChildren, hhead, hnod]
  simp only [String.reduceEq, if_false, if_true, Bool.true_or, Option.isSome_none]
  cases styles <;> simp

theorem headingName_withoutDigit_noBucket_witness :
    (containsStr (jsToLowerCase "Page Heading") "heading" = true
      ∧ findHeadingLevel (jsToLowerCase "Page Heading").data = none)
    ∧ (processDesignTokens
        (.mk "9:9" "Page Heading" "TEXT" none (some "Welcome") none [] [] none
          none none none none none none [])
        emptyTokens "").typography = emptyTokens.typography :=
  ⟨by decide,
   headingName_withoutDigit_noBucket "9:9" "Page Heading" none (some "Welcome") none
     [] [] none none none none none none none emptyTokens "" (by decide) (by decide)⟩

/-- C5: a TEXT node named "Heading H2" files its typography entry under
headings.h2, while a TEXT node named "H9" matches no heading digit and falls
through to typography.other. -/
theorem headingH2_and_H9_classification :
    (processDesignTokens (sampleTextNode "1:2" "Heading H2") emptyTokens "").typography
      = { headings := { h2 := [⟨"1:2", "Heading H2", some "Sample",
            mkTextStylePayload (some { fontFamily := some "Inter", fontSize := some 24 }) []⟩] },
          body := [], other := [] }
    ∧ (processDesignTokens (sampleTextNode "1:3" "H9") emptyTokens "").typography
      = { headings := {}, body := [],
          other := [⟨"1:3", "H9", some "Sample",
            mkTextStylePayload (some { fontFamily := some "Inter", fontSize := some 24 }) []⟩] } := by
  decide



theorem pushColorFill_bucket (id fullName nameLower : String) (acc : TokenSet)
    (f : Paint) (bkt : ColorBucket) :
    bucketOf (pushColorFill id fullName nameLower acc f).colors bkt
      = bucketOf acc.colors bkt
        ++ (if f.type = "SOLID" ∧ specColorBucket nameLower = bkt
            then [mkColorToken id fullName f] else []) := by
  by_cases hs : f.type = "SOLID"
  · simp only [pushColorFill, specColorBucket, hs, if_true, true_and]
    split_ifs <;> cases bkt <;> simp_all [bucketOf]
  · simp [pushColorFill, hs]

theorem foldColorFills (id fullName nameLower : String) (fills : List Paint)
    (acc : TokenSet) (bkt : ColorBucket) :
    bucketOf (fills.foldl (pushColorFill id fullName nameLower) acc).colors bkt
      = bucketOf acc.colors bkt
        ++ (fills.filter (fun f =>
            decide (f.type = "SOLID" ∧ specColorBucket nameLower = bkt))).map
          (mkColorToken id fullName) := by
  induction fills generalizing acc with
  | nil => simp
  | cons f rest ih =>
    simp only [List.foldl_cons, ih, List.filter_cons, pushColorFill_bucket]
    by_cases h : f.type = "SOLID" ∧ specColorBucket nameLower = bkt <;> simp [h]

theorem pushEffect_colors (id fullName : String) (acc : TokenSet) (e : FigmaEffect) :
    (pushEffect id fullName acc e).colors = acc.colors := by
  unfold pushEffect; split_ifs <;> rfl

theorem foldEffects_colors (id fullName : String) (effects : List FigmaEffect)
    (acc : TokenSet) :
    (effects.foldl (pushEffect id fullName) acc).colors = acc.colors := by
  induction effects generalizing acc with
  | nil => rfl
  | cons e rest ih => simp [List.foldl_cons, ih, pushEffect_colors]

/-- C8: for every RECTANGLE, VECTOR or ELLIPSE node, each SOLID fill yields one
color token, bucketed by the first matching case-insensitive substring rule on
the node own name: primary, else secondary, else text or typography, else
background or bg, else other; non-SOLID fills yield nothing. -/
theorem solidFill_bucket_rule
    (id name ty : String) (descr chars : Option String) (style : Option RawTextStyle)
    (fills : List Paint) (effects : List FigmaEffect) (styles : Option StylesMap)
    (lm : Option String) (isp pt pr pb pl : Option ℚ)
    (tokens : TokenSet) (parentName : String)
    (hty : ty = "RECTANGLE" ∨ ty = "VECTOR" ∨ ty = "ELLIPSE") :
    ∀ bkt, bucketOf (processDesignTokens
        (.mk id name ty descr chars style fills effects styles lm isp pt pr pb pl [])
        tokens parentName).colors bkt
      = bucketOf tokens.colors bkt
        ++ ((fills.filter (fun f =>
              decide (f.type = "SOLID" ∧ specColorBucket (jsToLowerCase name) = bkt))).map
            (mkColorToken id (if parentName = "" then name else parentName ++ "/" ++ name))) := by
  intro bkt
  have hty1 : ¬ (ty = "COMPONENT" ∨ ty = "COMPONENT_SET") := by
    rcases hty with rfl | rfl | rfl <;> simp
  have hty2 : ¬ (ty = "TEXT") := by rcases hty with rfl | rfl | rfl <;> simp
  have hty3 : (ty = "RECTANGLE" ∨ ty = "VECTOR" ∨ ty = "ELLIPSE") := hty
  simp only [processDesignTokens, processChildren, hty1, hty2, hty3, if_true, if_false]
  cases styles <;>
    simp [foldEffects_colors, foldColorFills]



theorem solidFill_bucket_rule_witness :
    ("RECTANGLE" = "RECTANGLE" ∨ "RECTANGLE" = "VECTOR" ∨ "RECTANGLE" = "ELLIPSE")
    ∧ bucketOf (processDesignTokens
        (.mk "2:1" "Primary/Fill" "RECTANGLE" none none none [⟨"SOLID", 1, 0, 0, 1⟩] [] none
          none none none none none none []) emptyTokens "").colors ColorBucket.primary
      = [mkColorToken "2:1" "Primary/Fill" ⟨"SOLID", 1, 0, 0, 1⟩]
    ∧ bucketOf (processDesignTokens
        (.mk "2:2" "Generic Shape" "RECTANGLE" none none none [⟨"SOLID", 1, 0, 0, 1⟩] [] none
          none none none none none none []) emptyTokens "").colors ColorBucket.other
      = [mkColorToken "2:2" "Generic Shape" ⟨"SOLID", 1, 0, 0, 1⟩] :=
  ⟨Or.inl rfl,
   (solidFill_bucket_rule "2:1" "Primary/Fill" "RECTANGLE" none none none
      [⟨"SOLID", 1, 0, 0, 1⟩] [] none none none none none none none emptyTokens ""
      (Or.inl rfl) ColorBucket.primary).trans (by rfl),
   (solidFill_bucket_rule "2:2" "Generic Shape" "RECTANGLE" none none none
      [⟨"SOLID", 1, 0, 0, 1⟩] [] none none none none none none none emptyTokens ""
      (Or.inl rfl) ColorBucket.other).trans (by rfl)⟩

theorem mapSet_absent {α : Type} (m : List (String × α)) (k : String) (v : α)
    (h : ∀ p ∈ m, ¬ (p.1 == k) = true) : mapSet m k v = m ++ [(k, v)] := by
  unfold mapSet
  rw [if_neg]
  simp only [List.any_eq_true, not_exists, not_and]
  intro p hp
  exact fun hk => (h p hp) hk

theorem seedFold_eq (components : List ComponentToken)
    (m : List (String × YamlComponentEntry))
    (hdisj : ∀ c ∈ components, ∀ p ∈ m, ¬ (p.1 == c.id) = true)
    (hnd : (components.map (fun c => c.id)).Nodup) :
    components.foldl
        (fun m comp => mapSet m comp.id ⟨comp.name, comp.type, comp.description, []⟩) m
      = m ++ components.map (fun c => (c.id, ⟨c.name, c.type, c.description, []⟩)) := by
  induction components generalizing m with
  | nil => simp
  | cons c cs ih =>
    have hnd2 : (c.id ∉ cs.map (fun x => x.id)) ∧ (cs.map (fun x => x.id)).Nodup := by
      simpa using hnd
    simp only [List.foldl_cons]
    rw [mapSet_absent m c.id _ (fun p hp => hdisj c (List.mem_cons_self _ _) p hp)]
    have hd : ∀ c2 ∈ cs, ∀ p ∈ m ++ [(c.id,
        (⟨c.name, c.type, c.description, []⟩ : YamlComponentEntry))], ¬ (p.1 == c2.id) = true := by
      intro c2 hc2 p hp
      rcases List.mem_append.1 hp with hp2 | hp2
      · exact hdisj c2 (List.mem_cons_of_mem _ hc2) p hp2
      · simp only [List.mem_singleton] at hp2
        subst hp2
        simp only [beq_iff_eq]
        intro hcontra
        exact hnd2.1 (by rw [hcontra]; exact List.mem_map_of_mem _ hc2)
    rw [ih _ hd hnd2.2]
    simp

theorem mapLookup_of_mem_nodup {α : Type} (m : List (String × α))
    (hnd : (m.map (fun p => p.1)).Nodup) (p : String × α) (hp : p ∈ m) :
    mapLookup m p.1 = some p.2 := by
  induction m with
  | nil => cases hp
  | cons q rest ih =>
    have hnd2 : (q.1 ∉ rest.map (fun x => x.1)) ∧ (rest.map (fun x => x.1)).Nodup := by
      simpa using hnd
    rcases List.mem_cons.1 hp with rfl | hp2
    · simp [mapLookup, List.find?]
    · have hne : ¬ (q.1 == p.1) = true := by
        simp only [beq_iff_eq]
        intro he
        exact hnd2.1 (he ▸ List.mem_map_of_mem _ hp2)
      simp only [mapLookup, List.find?, hne]
      exact ih hnd2.2 hp2

/-- The instance-linking pass: with distinct keys, it extends every
entry by exactly its matching instances, in order. -/
theorem instFold_eq (instances : List InstanceRecord)
    (m : List (String × YamlComponentEntry))
    (hnd : (m.map (fun p => p.1)).Nodup) :
    instances.foldl linkInstance m
      = m.map (fun p => (p.1, extendEntry p.2 (linkedPairs instances p.1))) := by
  induction instances generalizing m with
  | nil =>
    simp only [List.foldl_nil, linkedPairs, List.filter_nil, List.map_nil]
    have hid : (fun (p : String × YamlComponentEntry) => (p.1, extendEntry p.2 [])) = id := by
      funext p
      cases p with
      | mk k e => cases e; simp [extendEntry]
    rw [hid, List.map_id]
  | cons inst rest ih =>
    simp only [List.foldl_cons]
    cases hlk : mapLookup m inst.componentId with
    | none =>
      rw [show linkInstance m inst = m by unfold linkInstance; rw [hlk], ih m hnd]
      apply List.map_congr_left
      intro p hp
      have hfind : m.find? (fun p => p.1 == inst.componentId) = none := by
        rw [mapLookup] at hlk
        exact Option.map_eq_none'.1 hlk
      have hnone : ∀ p ∈ m, ¬ ((p.1 == inst.componentId) = true) := by
        intro p2 hp2
        exact List.find?_eq_none.1 hfind p2 hp2
      have hne : (inst.componentId == p.1) = false := by
        simp only [beq_iff_eq] at hnone ⊢
        simp only [beq_eq_false_iff_ne, ne_eq]
        intro he
        exact hnone p hp he.symm
      simp [linkedPairs, List.filter_cons, hne]
    | some entry =>
      obtain ⟨q, hq, hq2⟩ :
          ∃ q, m.find? (fun p => p.1 == inst.componentId) = some q ∧ q.2 = entry := by
        cases h : m.find? (fun p => p.1 == inst.componentId) with
        | none => rw [mapLookup, h] at hlk; cases hlk
        | some q =>
          refine ⟨q, rfl, ?_⟩
          rw [mapLookup, h] at hlk
          simpa using hlk
      have hqmem : q ∈ m := List.mem_of_find?_eq_some hq
      have hqpred : (q.1 == inst.componentId) = true := by
        have h2 := List.find?_some hq
        simpa using h2
      have hany : m.any (fun p => p.1 == inst.componentId) = true :=
        List.any_eq_true.2 ⟨q, hqmem, hqpred⟩
      have hset : mapSet m inst.componentId
          { entry with instances := entry.instances ++ [(inst.id, inst.name)] }
          = m.map (fun p => if p.1 == inst.componentId then
              (inst.componentId,
               { entry with instances := entry.instances ++ [(inst.id, inst.name)] })
              else p) := by
        unfold mapSet
        rw [if_pos hany]
      have hkeys : (m.map (fun p => if p.1 == inst.componentId then
          (inst.componentId,
           { entry with instances := entry.instances ++ [(inst.id, inst.name)] })
          else p)).map (fun p => p.1) = m.map (fun p => p.1) := by
        rw [List.map_map]
        apply List.map_congr_left
        intro p hp
        by_cases hb : (p.1 == inst.componentId) = true
        · simp only [Function.comp_apply, hb, if_true]
          exact (beq_iff_eq.1 hb).symm
        · have hb2 : ¬ p.1 = inst.componentId := by simpa using hb
          simp [Function.comp_apply, hb2]
      have hstep : linkInstance m inst
          = mapSet m inst.componentId
              { entry with instances := entry.instances ++ [(inst.id, inst.name)] } := by
        unfold linkInstance
        rw [hlk]
      rw [hstep, hset, ih _ (by rw [hkeys]; exact hnd), List.map_map]
      apply List.map_congr_left
      intro p hp
      by_cases hb : (p.1 == inst.componentId) = true
      · have hp1 : p.1 = inst.componentId := beq_iff_eq.1 hb
        have hpe : p.2 = entry := by
          have h1 := mapLookup_of_mem_nodup m hnd p hp
          rw [hp1, hlk] at h1
          have h2 : entry = p.2 := by simpa using h1
          exact h2.symm
        have hfc : (inst.componentId == p.1) = true := by
          simp only [beq_iff_eq]
          exact hp1.symm
        simp only [Function.comp_apply, hb, if_true, linkedPairs, List.filter_cons, hfc,
          List.map_cons, extendEntry, hp1, hpe]
        simp
      · have hfc : (inst.componentId == p.1) = false := by
          simp only [beq_iff_eq] at hb ⊢
          simp only [beq_eq_false_iff_ne, ne_eq]
          intro he
          exact hb he.symm
        simp only [Function.comp_apply, hb, if_false, linkedPairs, List.filter_cons, hfc]
        simp

/-- With pairwise distinct component ids, the manifest map has exactly
one entry per component, in order, whose instance list is exactly the
matching instances in order. -/
theorem buildComponentMap_eq (components : List ComponentToken)
    (instances : List InstanceRecord)
    (hnd : (components.map (fun c => c.id)).Nodup) :
    buildComponentMap components instances
      = components.map (fun c => (c.id,
          ⟨c.name, c.type, c.description, linkedPairs instances c.id⟩)) := by
  unfold buildComponentMap
  rw [seedFold_eq components [] (by simp) hnd]
  simp only [List.nil_append]
  rw [instFold_eq instances _ (by rw [List.map_map]; simpa using hnd)]
  rw [List.map_map]
  apply List.map_congr_left
  intro c hc
  simp [extendEntry]

/-- C9: in generateComponentYAML, every instance whose componentId equals some
component id is listed under exactly that component, and an instance whose
componentId matches no component id appears nowhere in the manifest; concretely,
with component A and instances i1 (componentId A) and i2 (componentId Z), only
i1 is listed, under A. -/
theorem manifest_links_only_matching_instances :
    (∀ (components : List ComponentToken) (instances : List InstanceRecord),
        (components.map (fun c => c.id)).Nodup →
        buildComponentMap components instances
          = components.map (fun c => (c.id,
              ⟨c.name, c.type, c.description, linkedPairs instances c.id⟩)))
    ∧ generateComponentYAML c9Components c9Instances
        = "components:\n  A:\n    name: \"Component A\"\n    type: COMPONENT\n"
          ++ "    instances:\n      - id: i1\n        name: \"Inst One\"\n\n"
    ∧ containsStr (generateComponentYAML c9Components c9Instances) "i2" = false
    ∧ containsStr (generateComponentYAML c9Components c9Instances) "Z" = false :=
  ⟨buildComponentMap_eq, by decide, by decide, by decide⟩

theorem manifest_links_only_matching_instances_witness :
    ((c9Components.map (fun c => c.id)).Nodup)
    ∧ buildComponentMap c9Components c9Instances
        = c9Components.map (fun c => (c.id,
            ⟨c.name, c.type, c.description, linkedPairs c9Instances c.id⟩)) :=
  ⟨by decide,
   manifest_links_only_matching_instances.1 c9Components c9Instances (by decide)⟩




theorem listContainsSeq_replicate_false (c0 : Char) (rest : List Char) (a : Char)
    (hne : (c0 == a) = false) :
    ∀ n, listContainsSeq (c0 :: rest) (List.replicate n a) = false := by
  intro n
  induction n with
  | zero => simp [listContainsSeq, listStartsWith]
  | succ k ih =>
    rw [List.replicate_succ]
    simp only [listContainsSeq, listStartsWith, hne, Bool.false_and, Bool.false_or]
    exact ih

theorem containsMarker_replicate_false (n : Nat) :
    containsStr (String.mk (List.replicate n 'a')) "Complete Frame Data:" = false := by
  have h : "Complete Frame Data:".data = 'C' :: "omplete Frame Data:".data := rfl
  unfold containsStr
  rw [h]
  exact listContainsSeq_replicate_false 'C' _ 'a' (by decide) n

/-- C1 (amended): when the primary provider is OpenAI, Claude is configured,
the estimated token count content.length / 4 exceeds maxGPT4Tokens, and the
prompt contains the marker Complete Frame Data:, callAI routes every provider
call of that invocation to the Claude fallback and, when at least one attempt is
made, makes at least one call - the primary is never called. -/
theorem largeFramePrompt_routes_to_claude (opts : CallOptions) (content : String)
    (oracle : Nat → ApiResult)
    (hex : ((content.length : ℚ) / 4 > (opts.maxGPT4Tokens : ℚ)))
    (hmarker : containsStr content "Complete Frame Data:" = true) :
    (∀ pc ∈ (callAI opts true true content oracle).calls, pc = ProviderCall.claudeFallback)
    ∧ (0 < opts.maxRetries → (callAI opts true true content oracle).calls ≠ []) := by
  have hchoice : providerChoice true true content opts = .claudeFallback := by
    unfold providerChoice usesClaudeFallback
    rw [if_pos]
    simp [hmarker, decide_eq_true hex]
  have key : ∀ fuel attempt,
      (∀ pc ∈ (callAITrace opts true true content oracle fuel attempt).calls,
        pc = ProviderCall.claudeFallback)
      ∧ (0 < fuel → (callAITrace opts true true content oracle fuel attempt).calls ≠ []) := by
    intro fuel
    induction fuel with
    | zero => intro attempt; simp [callAITrace]
    | succ k ih =>
      intro attempt
      simp only [callAITrace, hchoice]
      cases oracle attempt with
      | success => simp
      | errOther => simp
      | err429 =>
        by_cases hretry : attempt < opts.maxRetries - 1
        · simp only [if_pos hretry]
          refine ⟨?_, fun _ => by simp⟩
          intro pc hpc
          rcases List.mem_cons.1 hpc with rfl | hpc2
          · rfl
          · exact (ih (attempt + 1)).1 pc hpc2
        · simp [if_neg hretry]
  exact ⟨(key opts.maxRetries 0).1, fun h => (key opts.maxRetries 0).2 h⟩

/-- C1 counterexample: a prompt of 24004 characters (estimated 6001 tokens,
above the 6000 ceiling) that lacks the Complete Frame Data: marker is sent to
the primary OpenAI provider even though Claude is configured - the fallback
condition in the code also requires the marker, so the spec sentence as frozen
is false for such prompts. -/
theorem fallback_skipped_without_marker :
    ((bigPlainContent.length : ℚ) / 4 > (defaultCallOptions.maxGPT4Tokens : ℚ))
    ∧ (callAI defaultCallOptions true true bigPlainContent (fun _ => ApiResult.success)).calls
        = [ProviderCall.openaiPrimary] := by
  have hl : bigPlainContent.length = 24004 := by
    rw [bigPlainContent, String.length_mk, List.length_replicate]
  constructor
  · rw [hl]
    show ((24004 : ℚ) / 4 > ((6000 : Nat) : ℚ))
    norm_num
  · have hmarker := containsMarker_replicate_false 24004
    have hchoice : providerChoice true true bigPlainContent defaultCallOptions
        = ProviderCall.openaiPrimary := by
      unfold providerChoice usesClaudeFallback
      rw [show containsStr bigPlainContent "Complete Frame Data:" = false from hmarker]
      simp
    have h5 : defaultCallOptions.maxRetries = 4 + 1 := rfl
    unfold callAI
    rw [h5]
    simp only [callAITrace, hchoice]




theorem largeFramePrompt_routes_to_claude_witness :
    (((bigFrameContent.length : ℚ) / 4 > (defaultCallOptions.maxGPT4Tokens : ℚ))
      ∧ containsStr bigFrameContent "Complete Frame Data:" = true)
    ∧ (∀ pc ∈ (callAI defaultCallOptions true true bigFrameContent
          (fun _ => ApiResult.success)).calls, pc = ProviderCall.claudeFallback) := by
  have hl : bigFrameContent.length = 24020 := by
    rw [bigFrameContent, String.length_mk, List.length_append, List.length_replicate]
    rfl
  have hex : ((bigFrameContent.length : ℚ) / 4 > (defaultCallOptions.maxGPT4Tokens : ℚ)) := by
    rw [hl]
    show ((24020 : ℚ) / 4 > ((6000 : Nat) : ℚ))
    norm_num
  have hmk : containsStr bigFrameContent "Complete Frame Data:" = true := by decide
  exact ⟨⟨hex, hmk⟩,
    (largeFramePrompt_routes_to_claude defaultCallOptions bigFrameContent
      (fun _ => ApiResult.success) hex hmk).1⟩

theorem callAITrace_retryDelays_length (opts : CallOptions) (io cc : Bool)
    (content : String) (oracle : Nat → ApiResult) :
    ∀ fuel attempt, (callAITrace opts io cc content oracle fuel attempt).retryDelays.length
      ≤ opts.maxRetries - 1 - attempt := by
  intro fuel
  induction fuel with
  | zero => intro attempt; simp [callAITrace]
  | succ k ih =>
    intro attempt
    simp only [callAITrace]
    cases oracle attempt with
    | success => simp
    | errOther => simp
    | err429 =>
      by_cases h : attempt < opts.maxRetries - 1
      · simp only [if_pos h, List.length_cons]
        have h2 := ih (attempt + 1)
        omega
      · simp [if_neg h]

theorem callAITrace_retryDelays_form (opts : CallOptions) (io cc : Bool)
    (content : String) (oracle : Nat → ApiResult) :
    ∀ fuel attempt, ∀ d ∈ (callAITrace opts io cc content oracle fuel attempt).retryDelays,
      ∃ a, attempt + 1 ≤ a ∧ a ≤ opts.maxRetries - 1
        ∧ d = exponentialBackoff a opts.baseDelay := by
  intro fuel
  induction fuel with
  | zero => intro attempt d hd; simp [callAITrace] at hd
  | succ k ih =>
    intro attempt d
    cases ho : oracle attempt with
    | success => simp [callAITrace, ho]
    | errOther => simp [callAITrace, ho]
    | err429 =>
      by_cases h : attempt < opts.maxRetries - 1
      · simp only [callAITrace, ho, if_pos h, List.mem_cons]
        rintro (rfl | hd2)
        · exact ⟨attempt + 1, le_refl _, by omega, rfl⟩
        · obtain ⟨a, ha1, ha2, ha3⟩ := ih (attempt + 1) d hd2
          exact ⟨a, by omega, ha2, ha3⟩
      · simp [callAITrace, ho, if_neg h]

theorem chunkLoopStep_429 (numChunks : Nat) (opts : CallOptions)
    (oracle : Nat → ApiResult) (s : ChunkState)
    (hidx : s.currentIndex < numChunks) (ho : oracle s.callsMade = ApiResult.err429) :
    chunkLoopStep numChunks opts oracle s
      = .running ⟨s.currentIndex, s.attempt + 1, s.callsMade + 1⟩
          (some (exponentialBackoff (s.attempt + 1) (opts.baseDelay * 2))) := by
  unfold chunkLoopStep
  rw [if_neg (by omega), ho]

theorem chunkLoop_unbounded (numChunks : Nat) (opts : CallOptions) (h : 0 < numChunks) :
    ∀ n k, chunkStateAfter numChunks opts (fun _ => ApiResult.err429) n ⟨0, k, k⟩
      = some ⟨0, k + n, k + n⟩ := by
  intro n
  induction n with
  | zero => intro k; simp [chunkStateAfter]
  | succ m ih =>
    intro k
    simp only [chunkStateAfter]
    rw [chunkLoopStep_429 numChunks opts _ ⟨0, k, k⟩ h rfl]
    show chunkStateAfter numChunks opts (fun _ => ApiResult.err429) m ⟨0, k + 1, k + 1⟩
      = some ⟨0, k + (m + 1), k + (m + 1)⟩
    rw [ih (k + 1)]
    have he : k + 1 + m = k + (m + 1) := by omega
    rw [he]

/-- C3 (amended): in the non-chunked path each 429 retry waits exactly
exponentialBackoff attempt baseDelay = min (baseDelay * 2 ^ attempt) 120000 and
retries stop after maxRetries = 5 attempts with the error surfaced; in the
chunked path each 429 retry instead waits exponentialBackoff attempt
(2 * baseDelay) and the retry loop is unbounded - the attempt counter is reset
by neither condition, so under persistent 429 the chunk loop never finishes. -/
theorem retry_bounded_nonchunked_unbounded_chunked :
    (∀ (opts : CallOptions) (io cc : Bool) (content : String) (oracle : Nat → ApiResult),
        (callAI opts io cc content oracle).retryDelays.length ≤ opts.maxRetries - 1)
    ∧ (∀ (opts : CallOptions) (io cc : Bool) (content : String) (oracle : Nat → ApiResult),
        ∀ d ∈ (callAI opts io cc content oracle).retryDelays,
        ∃ a, 1 ≤ a ∧ a ≤ opts.maxRetries - 1 ∧ d = exponentialBackoff a opts.baseDelay)
    ∧ (callAI defaultCallOptions false false "" (fun _ => ApiResult.err429)
        = ⟨List.replicate 5 ProviderCall.claudePrimary, [4000, 8000, 16000, 32000],
           CallOutcome.errorSurfaced⟩)
    ∧ (∀ (numChunks : Nat) (opts : CallOptions) (oracle : Nat → ApiResult) (s : ChunkState),
        s.currentIndex < numChunks → oracle s.callsMade = ApiResult.err429 →
        chunkLoopStep numChunks opts oracle s
          = .running ⟨s.currentIndex, s.attempt + 1, s.callsMade + 1⟩
              (some (exponentialBackoff (s.attempt + 1) (opts.baseDelay * 2))))
    ∧ (∀ (numChunks : Nat) (opts : CallOptions), 0 < numChunks → ∀ n,
        chunkStateAfter numChunks opts (fun _ => ApiResult.err429) n ⟨0, 0, 0⟩
          = some ⟨0, n, n⟩) := by
  refine ⟨?_, ?_, ?_, ?_, ?_⟩
  · intro opts io cc content oracle
    have := callAITrace_retryDelays_length opts io cc content oracle opts.maxRetries 0
    simpa [callAI] using this
  · intro opts io cc content oracle d hd
    have := callAITrace_retryDelays_form opts io cc content oracle opts.maxRetries 0 d
      (by simpa [callAI] using hd)
    simpa using this
  · decide
  · exact fun numChunks opts oracle s h1 h2 => chunkLoopStep_429 numChunks opts oracle s h1 h2
  · intro numChunks opts h n
    simpa using chunkLoop_unbounded numChunks opts h n 0

/-- C3 counterexample: a chunk hitting 429 at attempt 0 waits 8000 ms, which is
neither exponentialBackoff 0 baseDelay = 2000 nor exponentialBackoff 1 baseDelay
= 4000 under the default options, and after six persistent-429 steps the chunk
loop is still running with six calls made - the fixed ceiling maxRetries = 5 is
not enforced there, refuting the frozen claim for the chunked path. -/
theorem chunk_retry_delay_and_bound_counterexample :
    chunkLoopStep 3 defaultCallOptions (fun _ => ApiResult.err429) ⟨0, 0, 0⟩
      = .running ⟨0, 1, 1⟩ (some 8000)
    ∧ exponentialBackoff 0 2000 = 2000 ∧ exponentialBackoff 1 2000 = 4000
    ∧ (8000 ≠ exponentialBackoff 0 2000 ∧ 8000 ≠ exponentialBackoff 1 2000)
    ∧ chunkStateAfter 3 defaultCallOptions (fun _ => ApiResult.err429) 6 ⟨0, 0, 0⟩
        = some ⟨0, 6, 6⟩
    ∧ defaultCallOptions.maxRetries = 5 := by
  decide

theorem retry_bounded_witness :
    ((0 : Nat) < 2 ∧ (fun (_ : Nat) => ApiResult.err429) 0 = ApiResult.err429)
    ∧ (callAI defaultCallOptions false false "" (fun _ => ApiResult.err429)).retryDelays.length
        ≤ defaultCallOptions.maxRetries - 1
    ∧ chunkLoopStep 2 defaultCallOptions (fun _ => ApiResult.err429) ⟨0, 0, 0⟩
        = .running ⟨0, 1, 1⟩ (some (exponentialBackoff 1 (defaultCallOptions.baseDelay * 2)))
    ∧ chunkStateAfter 2 defaultCallOptions (fun _ => ApiResult.err429) 4 ⟨0, 0, 0⟩
        = some ⟨0, 4, 4⟩ :=
  ⟨⟨by decide, rfl⟩,
   retry_bounded_nonchunked_unbounded_chunked.1 defaultCallOptions false false ""
     (fun _ => ApiResult.err429),
   retry_bounded_nonchunked_unbounded_chunked.2.2.2.1 2 defaultCallOptions
     (fun _ => ApiResult.err429) ⟨0, 0, 0⟩ (by decide) rfl,
   retry_bounded_nonchunked_unbounded_chunked.2.2.2.2 2 defaultCallOptions (by decide) 4⟩



set_option maxRecDepth 4000 in
theorem toHex_data_eq : ∀ n, n < 256 → (toHex n).data = [hexChar (n / 16), hexChar (n % 16)] := by
  decide

theorem hexVal_hexChar : ∀ m, m < 16 → hexVal (hexChar m) = some m := by
  decide

/-- C7: for all r g b in [0,255], rgbToHex returns a hash sign followed by
exactly six hexadecimal digits - each channel zero-padded to two digits - and
decoding the three hex pairs reproduces exactly r, g and b. -/
theorem rgbToHex_roundtrip (r g b : Nat) (hr : r ≤ 255) (hg : g ≤ 255) (hb : b ≤ 255) :
    (toHex r).data.length = 2 ∧ (toHex g).data.length = 2 ∧ (toHex b).data.length = 2
      ∧ (rgbToHex r g b).data
          = '#' :: ((toHex r).data ++ (toHex g).data ++ (toHex b).data)
      ∧ (∀ c ∈ (rgbToHex r g b).data.tail, (hexVal c).isSome)
      ∧ decodeHexColor (rgbToHex r g b) = some (r, g, b) := by
  have dr := toHex_data_eq r (by omega)
  have dg := toHex_data_eq g (by omega)
  have db := toHex_data_eq b (by omega)
  have hdata : (rgbToHex r g b).data
      = '#' :: ((toHex r).data ++ (toHex g).data ++ (toHex b).data) := by
    simp [rgbToHex]
  have hlist : (rgbToHex r g b).data
      = ['#', hexChar (r / 16), hexChar (r % 16), hexChar (g / 16), hexChar (g % 16),
         hexChar (b / 16), hexChar (b % 16)] := by
    rw [hdata, dr, dg, db]; rfl
  have e1 := hexVal_hexChar (r / 16) (by omega)
  have e2 := hexVal_hexChar (r % 16) (by omega)
  have e3 := hexVal_hexChar (g / 16) (by omega)
  have e4 := hexVal_hexChar (g % 16) (by omega)
  have e5 := hexVal_hexChar (b / 16) (by omega)
  have e6 := hexVal_hexChar (b % 16) (by omega)
  refine ⟨by rw [dr]; rfl, by rw [dg]; rfl, by rw [db]; rfl, hdata, ?_, ?_⟩
  · intro c hc
    rw [hlist] at hc
    simp only [List.tail_cons, List.mem_cons, List.not_mem_nil, or_false] at hc
    rcases hc with rfl | rfl | rfl | rfl | rfl | rfl <;>
      simp [e1, e2, e3, e4, e5, e6]
  · simp only [decodeHexColor, hlist, e1, e2, e3, e4, e5, e6, Option.some.injEq,
      Prod.mk.injEq]
    refine ⟨by omega, by omega, by omega⟩

theorem rgbToHex_roundtrip_witness :
    (7 ≤ 255 ∧ 0 ≤ 255 ∧ 255 ≤ 255) ∧ decodeHexColor (rgbToHex 7 0 255) = some (7, 0, 255) :=
  ⟨by decide, (rgbToHex_roundtrip 7 0 255 (by decide) (by decide) (by decide)).2.2.2.2.2⟩



theorem find?_subst_self {α : Type} (m : List (String × α)) (k : String) (v : α)
    (hany : m.any (fun p => p.1 == k) = true) :
    (m.map (fun p => if p.1 == k then (k, v) else p)).find? (fun p => p.1 == k)
      = some (k, v) := by
  induction m with
  | nil => cases hany
  | cons q rest ih =>
    simp only [List.map_cons, List.find?_cons]
    by_cases hq : (q.1 == k) = true
    · simp [hq]
    · have hq2 : (q.1 == k) = false := by simpa using hq
      simp only [hq2, if_false]
      have hrest : rest.any (fun p => p.1 == k) = true := by
        rcases List.any_eq_true.1 hany with ⟨p, hp, hpk⟩
        rcases List.mem_cons.1 hp with rfl | hp2
        · exact absurd hpk hq
        · exact List.any_eq_true.2 ⟨p, hp2, hpk⟩
      simpa [hq2] using ih hrest

theorem find?_subst_ne {α : Type} (m : List (String × α)) (k k2 : String) (v : α)
    (hne : k2 ≠ k) :
    (m.map (fun p => if p.1 == k then (k, v) else p)).find? (fun p => p.1 == k2)
      = m.find? (fun p => p.1 == k2) := by
  induction m with
  | nil => rfl
  | cons q rest ih =>
    simp only [List.map_cons, List.find?_cons]
    by_cases hq : (q.1 == k) = true
    · have hk2 : (k == k2) = false := by
        simp only [beq_eq_false_iff_ne, ne_eq]
        exact fun he => hne he.symm
      have hq2 : (q.1 == k2) = false := by
        rw [beq_iff_eq.1 hq]
        exact hk2
      simp only [hq, if_true, hk2, hq2]
      exact ih
    · have hq3 : (q.1 == k) = false := by simpa using hq
      simp only [hq3, Bool.false_eq_true, if_false]
      by_cases hq2 : (q.1 == k2) = true
      · simp [hq2]
      · have hq4 : (q.1 == k2) = false := by simpa using hq2
        simp only [hq4]
        exact ih

theorem find?_append_singleton_ne {α : Type} (m : List (String × α)) (k k2 : String) (v : α)
    (hne : k2 ≠ k) :
    (m ++ [(k, v)]).find? (fun p => p.1 == k2) = m.find? (fun p => p.1 == k2) := by
  induction m with
  | nil =>
    have hk2 : (k == k2) = false := by
      simp only [beq_eq_false_iff_ne, ne_eq]
      exact fun he => hne he.symm
    simp [List.find?, hk2]
  | cons q rest ih =>
    simp only [List.cons_append, List.find?_cons]
    by_cases hq2 : (q.1 == k2) = true
    · simp [hq2]
    · have hq4 : (q.1 == k2) = false := by simpa using hq2
      simp only [hq4]
      exact ih

theorem find?_append_singleton_none {α : Type} (m : List (String × α)) (k : String) (v : α)
    (hnone : ∀ p ∈ m, ¬ ((p.1 == k) = true)) :
    (m ++ [(k, v)]).find? (fun p => p.1 == k) = some (k, v) := by
  induction m with
  | nil => simp [List.find?]
  | cons q rest ih =>
    simp only [List.cons_append, List.find?_cons]
    have hq : (q.1 == k) = false := by
      simpa using hnone q (List.mem_cons_self _ _)
    simp only [hq]
    exact ih (fun p hp => hnone p (List.mem_cons_of_mem _ hp))

theorem mapLookup_mapSet_self {α : Type} (m : List (String × α)) (k : String) (v : α) :
    mapLookup (mapSet m k v) k = some v := by
  unfold mapSet
  by_cases h : m.any (fun p => p.1 == k) = true
  · rw [if_pos h, mapLookup, find?_subst_self m k v h]
    rfl
  · rw [if_neg h, mapLookup, find?_append_singleton_none m k v
      (fun p hp hpk => h (List.any_eq_true.2 ⟨p, hp, hpk⟩))]
    rfl

theorem mapLookup_mapSet_ne {α : Type} (m : List (String × α)) (k k2 : String) (v : α)
    (hne : k2 ≠ k) : mapLookup (mapSet m k v) k2 = mapLookup m k2 := by
  unfold mapSet
  by_cases h : m.any (fun p => p.1 == k) = true
  · rw [if_pos h, mapLookup, find?_subst_ne m k k2 v hne, mapLookup]
  · rw [if_neg h, mapLookup, find?_append_singleton_ne m k k2 v hne, mapLookup]



theorem compFold_preserves (hasAI : Bool) (instances : List InstanceRecord)
    (oracleC : String → LLMResult) :
    ∀ (components : List ComponentToken)
      (acc : List (String × ComponentPseudo) × List String) (k : String),
      (mapLookup acc.1 k).isSome = true →
      (mapLookup (components.foldl (componentGenStep hasAI instances oracleC) acc).1 k).isSome
        = true := by
  intro components
  induction components with
  | nil => intro acc k h; simpa using h
  | cons c cs ih =>
    intro acc k h
    simp only [List.foldl_cons]
    apply ih
    cases hf : instances.filter (fun i => i.componentId == c.id) with
    | nil => simpa [componentGenStep, hf] using h
    | cons mi rest =>
      by_cases hk : k = c.id
      · subst hk
        simp [componentGenStep, hf, mapLookup_mapSet_self]
      · simpa [componentGenStep, hf, mapLookup_mapSet_ne _ _ _ _ hk] using h

theorem compFold_mem (hasAI : Bool) (instances : List InstanceRecord)
    (oracleC : String → LLMResult) :
    ∀ (components : List ComponentToken)
      (acc : List (String × ComponentPseudo) × List String),
      ∀ c ∈ components,
      instances.filter (fun i => i.componentId == c.id) ≠ [] →
      (mapLookup (components.foldl (componentGenStep hasAI instances oracleC) acc).1 c.id).isSome
        = true := by
  intro components
  induction components with
  | nil => intro acc c hc; cases hc
  | cons c2 cs ih =>
    intro acc c hc hne
    rcases List.mem_cons.1 hc with rfl | hc2
    · simp only [List.foldl_cons]
      apply compFold_preserves
      cases hf : instances.filter (fun i => i.componentId == c.id) with
      | nil => exact absurd hf hne
      | cons mi rest =>
        simp [componentGenStep, hf, mapLookup_mapSet_self]
    · simp only [List.foldl_cons]
      exact ih _ c hc2 hne

theorem frameInnerFold_preserves (hasAI : Bool) (canvas : CanvasNode)
    (oracleF : String → LLMResult) :
    ∀ (frames : List FrameChild) (acc : List (String × FramePseudo) × List String) (k : String),
      (mapLookup acc.1 k).isSome = true →
      (mapLookup (frames.foldl (frameGenStep hasAI canvas oracleF) acc).1 k).isSome = true := by
  intro frames
  induction frames with
  | nil => intro acc k h; simpa using h
  | cons f fs ih =>
    intro acc k h
    simp only [List.foldl_cons]
    apply ih
    by_cases hk : k = f.id
    · subst hk
      simp [frameGenStep, mapLookup_mapSet_self]
    · simpa [frameGenStep, mapLookup_mapSet_ne _ _ _ _ hk] using h

theorem frameInnerFold_mem (hasAI : Bool) (canvas : CanvasNode)
    (oracleF : String → LLMResult) :
    ∀ (frames : List FrameChild) (acc : List (String × FramePseudo) × List String),
      ∀ f ∈ frames,
      (mapLookup (frames.foldl (frameGenStep hasAI canvas oracleF) acc).1 f.id).isSome = true := by
  intro frames
  induction frames with
  | nil => intro acc f hf; cases hf
  | cons f2 fs ih =>
    intro acc f hf
    rcases List.mem_cons.1 hf with rfl | hf2
    · simp only [List.foldl_cons]
      apply frameInnerFold_preserves
      simp [frameGenStep, mapLookup_mapSet_self]
    · simp only [List.foldl_cons]
      exact ih _ f hf2

theorem canvasFold_preserves (hasAI : Bool) (oracleF : String → LLMResult) :
    ∀ (canvases : List CanvasNode) (acc : List (String × FramePseudo) × List String) (k : String),
      (mapLookup acc.1 k).isSome = true →
      (mapLookup (canvases.foldl (canvasGenStep hasAI oracleF) acc).1 k).isSome = true := by
  intro canvases
  induction canvases with
  | nil => intro acc k h; simpa using h
  | cons cv cvs ih =>
    intro acc k h
    simp only [List.foldl_cons]
    apply ih
    unfold canvasGenStep
    exact frameInnerFold_preserves hasAI cv oracleF _ acc k h

theorem canvasFold_mem (hasAI : Bool) (oracleF : String → LLMResult) :
    ∀ (canvases : List CanvasNode) (acc : List (String × FramePseudo) × List String),
      ∀ cv ∈ canvases, ∀ f ∈ cv.children.filter (fun c => c.type == "FRAME"),
      (mapLookup (canvases.foldl (canvasGenStep hasAI oracleF) acc).1 f.id).isSome = true := by
  intro canvases
  induction canvases with
  | nil => intro acc cv hcv; cases hcv
  | cons cv2 cvs ih =>
    intro acc cv hcv f hf
    rcases List.mem_cons.1 hcv with rfl | hcv2
    · simp only [List.foldl_cons]
      apply canvasFold_preserves
      unfold canvasGenStep
      exact frameInnerFold_mem hasAI cv oracleF _ acc f hf
    · simp only [List.foldl_cons]
      exact ih _ cv hcv2 f hf

/-- C2: if the LLM call for a component or frame throws, the generator returns
the deterministic raw-JSON fallback for that one artifact and generateAllPseudoCode
still produces an entry for every processed artifact: no artifact-level failure
aborts the run. -/
theorem llm_failure_degrades_to_fallback :
    (∀ (component : ComponentToken) (inst : InstanceRecord) (msg : String),
        generatePseudoComponent true component inst (.thrown msg)
          = ⟨component.name, "# " ++ component.name ++ "\n" ++ jsonStringify inst.raw 0⟩)
    ∧ (∀ (frame : FrameChild) (canvas : CanvasNode) (msg : String),
        generatePseudoFrame true frame canvas (.thrown msg)
          = ⟨frame.name, "# " ++ frame.name ++ " (Canvas: " ++ canvas.name ++ ")\n"
              ++ jsonStringify frame.raw 0⟩)
    ∧ (∀ (hasAI : Bool) (components : List ComponentToken)
        (instances : List InstanceRecord) (canvases : List CanvasNode)
        (oracleC oracleF : String → LLMResult),
        (∀ c ∈ components,
          instances.filter (fun i => i.componentId == c.id) ≠ [] →
          (mapLookup (generateAllPseudoCode hasAI components instances canvases
              oracleC oracleF).components c.id).isSome = true)
        ∧ (∀ cv ∈ canvases, ∀ f ∈ cv.children.filter (fun c => c.type == "FRAME"),
          (mapLookup (generateAllPseudoCode hasAI components instances canvases
              oracleC oracleF).frames f.id).isSome = true)) := by
  refine ⟨fun component inst msg => rfl, fun frame canvas msg => rfl, ?_⟩
  intro hasAI components instances canvases oracleC oracleF
  constructor
  · intro c hc hne
    exact compFold_mem hasAI instances oracleC components ([], []) c hc hne
  · intro cv hcv f hf
    exact canvasFold_mem hasAI oracleF canvases ([], []) cv hcv f hf

theorem llm_failure_degrades_to_fallback_witness :
    ((⟨"A", "Component A", "COMPONENT", none, none⟩ : ComponentToken) ∈
        ([⟨"A", "Component A", "COMPONENT", none, none⟩] : List ComponentToken)
      ∧ ([⟨"i1", "Inst One", "A", Json.null⟩] : List InstanceRecord).filter
          (fun i => i.componentId == "A") ≠ [])
    ∧ (mapLookup (generateAllPseudoCode true
        [⟨"A", "Component A", "COMPONENT", none, none⟩]
        [⟨"i1", "Inst One", "A", Json.null⟩]
        [⟨"Canvas 1", [⟨"f1", "Frame 1", "FRAME", Json.null⟩]⟩]
        (fun _ => .thrown "rate limited") (fun _ => .thrown "rate limited")).components
        "A").isSome = true :=
  ⟨⟨List.mem_singleton.2 rfl, List.cons_ne_nil _ _⟩,
   (llm_failure_degrades_to_fallback.2.2 true
      [⟨"A", "Component A", "COMPONENT", none, none⟩]
      [⟨"i1", "Inst One", "A", Json.null⟩]
      [⟨"Canvas 1", [⟨"f1", "Frame 1", "FRAME", Json.null⟩]⟩]
      (fun _ => .thrown "rate limited") (fun _ => .thrown "rate limited")).1
     ⟨"A", "Component A", "COMPONENT", none, none⟩ (List.mem_singleton.2 rfl)
     (List.cons_ne_nil _ _)⟩

theorem compFold_skip (hasAI : Bool) (instances : List InstanceRecord)
    (oracleC : String → LLMResult) (cid : String)
    (hno : ∀ i ∈ instances, i.componentId ≠ cid) :
    ∀ (components : List ComponentToken)
      (acc : List (String × ComponentPseudo) × List String),
      mapLookup acc.1 cid = none → cid ∉ acc.2 →
      mapLookup (components.foldl (componentGenStep hasAI instances oracleC) acc).1 cid = none
      ∧ cid ∉ (components.foldl (componentGenStep hasAI instances oracleC) acc).2 := by
  intro components
  induction components with
  | nil => intro acc h1 h2; exact ⟨h1, h2⟩
  | cons c cs ih =>
    intro acc h1 h2
    simp only [List.foldl_cons]
    cases hf : instances.filter (fun i => i.componentId == c.id) with
    | nil =>
      have hstep : componentGenStep hasAI instances oracleC acc c = acc := by
        simp [componentGenStep, hf]
      rw [hstep]
      exact ih acc h1 h2
    | cons mi rest =>
      have hmi : mi ∈ instances ∧ (mi.componentId == c.id) = true := by
        have : mi ∈ instances.filter (fun i => i.componentId == c.id) := by
          rw [hf]; exact List.mem_cons_self _ _
        exact ⟨(List.mem_filter.1 this).1, (List.mem_filter.1 this).2⟩
      have hcne : c.id ≠ cid := by
        have := hno mi hmi.1
        rw [← beq_iff_eq.1 hmi.2]
        exact this
      have hstep : componentGenStep hasAI instances oracleC acc c
          = (mapSet acc.1 c.id (generatePseudoComponent hasAI c mi (oracleC c.id)),
             acc.2 ++ [c.id]) := by
        simp [componentGenStep, hf]
      rw [hstep]
      apply ih
      · rw [mapLookup_mapSet_ne _ _ _ _ (fun he => hcne he.symm)]
        exact h1
      · simp only [List.mem_append, List.mem_singleton]
        rintro (h | h)
        · exact h2 h
        · exact hcne h.symm

/-- C10: a component with no instance whose componentId matches its id is
skipped by generateAllPseudoCode before any generation is invoked: it gets no
pseudo-component entry and never reaches the generator, in AI mode or not. -/
theorem uninstantiated_component_skipped
    (hasAI : Bool) (components : List ComponentToken) (instances : List InstanceRecord)
    (canvases : List CanvasNode) (oracleC oracleF : String → LLMResult) (cid : String)
    (hno : ∀ i ∈ instances, i.componentId ≠ cid) :
    mapLookup (generateAllPseudoCode hasAI components instances canvases
        oracleC oracleF).components cid = none
    ∧ cid ∉ (generateAllPseudoCode hasAI components instances canvases
        oracleC oracleF).generatedComponents := by
  exact compFold_skip hasAI instances oracleC cid hno components ([], []) rfl (by simp)

theorem uninstantiated_component_skipped_witness :
    (∀ i ∈ ([⟨"i1", "Inst One", "B", Json.null⟩] : List InstanceRecord),
        i.componentId ≠ "A")
    ∧ mapLookup (generateAllPseudoCode false
        [⟨"A", "Component A", "COMPONENT", none, none⟩]
        [⟨"i1", "Inst One", "B", Json.null⟩] []
        (fun _ => .thrown "e") (fun _ => .thrown "e")).components "A" = none :=
  ⟨by decide,
   (uninstantiated_component_skipped false
      [⟨"A", "Component A", "COMPONENT", none, none⟩]
      [⟨"i1", "Inst One", "B", Json.null⟩] []
      (fun _ => .thrown "e") (fun _ => .thrown "e") "A" (by decide)).1⟩



theorem listStartsWith_append (p l1 l2 : List Char) (h : listStartsWith p l1 = true) :
    listStartsWith p (l1 ++ l2) = true := by
  induction p generalizing l1 with
  | nil => rfl
  | cons a as ih =>
    cases l1 with
    | nil => cases h
    | cons b bs =>
      simp only [listStartsWith, Bool.and_eq_true] at h
      simp only [List.cons_append, listStartsWith, Bool.and_eq_true]
      exact ⟨h.1, ih bs h.2⟩

theorem takeWhile_append_stop (p : Char → Bool) (l1 : List Char) (x : Char) (l2 : List Char)
    (h1 : ∀ c ∈ l1, p c = true) (hx : p x = false) :
    (l1 ++ x :: l2).takeWhile p = l1 ∧ (l1 ++ x :: l2).dropWhile p = x :: l2 := by
  induction l1 with
  | nil => simp [List.takeWhile_cons, List.dropWhile_cons, hx]
  | cons a as ih =>
    have ha : p a = true := h1 a (List.mem_cons_self _ _)
    have h2 := ih (fun c hc => h1 c (List.mem_cons_of_mem _ hc))
    simp [List.takeWhile_cons, List.dropWhile_cons, ha, h2.1, h2.2]

theorem splitOnChar_not_mem (c : Char) (l : List Char) (h : ∀ x ∈ l, x ≠ c) :
    splitOnChar c l = [l] := by
  induction l with
  | nil => rfl
  | cons a as ih =>
    have ha : a ≠ c := h a (List.mem_cons_self _ _)
    simp [splitOnChar, ha, ih (fun x hx => h x (List.mem_cons_of_mem _ hx))]

theorem splitOnChar_append (c : Char) (l1 l2 : List Char) (h : ∀ x ∈ l1, x ≠ c) :
    splitOnChar c (l1 ++ c :: l2) = l1 :: splitOnChar c l2 := by
  induction l1 with
  | nil => simp [splitOnChar]
  | cons a as ih =>
    have ha : a ≠ c := h a (List.mem_cons_self _ _)
    have h2 := ih (fun x hx => h x (List.mem_cons_of_mem _ hx))
    simp only [List.cons_append, splitOnChar, List.append_eq, h2, ha, if_false]

theorem splitOnChar_ne_nil (c : Char) (l : List Char) : splitOnChar c l ≠ [] := by
  cases l with
  | nil => simp [splitOnChar]
  | cons a as =>
    simp only [splitOnChar]
    by_cases ha : a = c
    · simp [ha]
    · simp only [ha, if_false]
      cases hr : splitOnChar c as with
      | nil => simp
      | cons h t => simp

theorem formDecodeChars_cons_plain (c : Char) (rest : List Char)
    (hc1 : c ≠ '+') (hc2 : c ≠ '%') :
    formDecodeChars (c :: rest) = c :: formDecodeChars rest := by
  match rest with
  | [] => simp [formDecodeChars, hc1, hc2]
  | [d] => simp [formDecodeChars, hc1, hc2]
  | a :: b :: r => simp [formDecodeChars, hc1, hc2]

theorem formDecodeChars_id (l : List Char) (h : ∀ c ∈ l, c ≠ '+' ∧ c ≠ '%') :
    formDecodeChars l = l := by
  induction l with
  | nil => rfl
  | cons a as ih =>
    have ha := h a (List.mem_cons_self _ _)
    rw [formDecodeChars_cons_plain a as ha.1 ha.2,
        ih (fun c hc => h c (List.mem_cons_of_mem _ hc))]

theorem data_ne_nil (s : String) (h : s ≠ "") : s.data ≠ [] := by
  intro hd
  apply h
  cases s with
  | mk d => cases hd; rfl



theorem takeWhile_all (p : Char → Bool) (l : List Char) (h : ∀ c ∈ l, p c = true) :
    l.takeWhile p = l := by
  induction l with
  | nil => rfl
  | cons a as ih =>
    simp [List.takeWhile_cons, h a (List.mem_cons_self _ _),
      ih (fun c hc => h c (List.mem_cons_of_mem _ hc))]

theorem parseURLModel_figma (ty fid title X : String)
    (hty : ∀ c ∈ ty.data, ¬(c = '/' ∨ c = '?' ∨ c = '#'))
    (hfid : ∀ c ∈ fid.data, ¬(c = '/' ∨ c = '?' ∨ c = '#'))
    (htitle : ∀ c ∈ title.data, ¬(c = '/' ∨ c = '?' ∨ c = '#'))
    (hX : ∀ c ∈ X.data, c ≠ '#') :
    parseURLModel ("https://www.figma.com/" ++ ty ++ "/" ++ fid ++ "/" ++ title
        ++ "?node-id=" ++ X)
      = some ⟨"www.figma.com",
          String.mk ('/' :: (ty.data ++ '/' :: (fid.data ++ '/' :: title.data))),
          "node-id=".data ++ X.data⟩ := by
  have hurl : ("https://www.figma.com/" ++ ty ++ "/" ++ fid ++ "/" ++ title
        ++ "?node-id=" ++ X).data
      = "https".data ++ ':' :: '/' :: '/' :: ("www.figma.com".data
          ++ '/' :: (ty.data ++ '/' :: (fid.data ++ '/' :: (title.data
            ++ '?' :: ("node-id=".data ++ X.data))))) := by
    simp only [String.data_append, List.append_assoc]
    rfl
  have hsch := takeWhile_append_stop (fun c => !(c == ':')) "https".data ':'
    ('/' :: '/' :: ("www.figma.com".data
      ++ '/' :: (ty.data ++ '/' :: (fid.data ++ '/' :: (title.data
        ++ '?' :: ("node-id=".data ++ X.data))))))
    (by decide) (by decide)
  have hauth := takeWhile_append_stop (fun c => !(authorityEnd c)) "www.figma.com".data '/'
    (ty.data ++ '/' :: (fid.data ++ '/' :: (title.data ++ '?' :: ("node-id=".data ++ X.data))))
    (by decide) (by decide)
  have hshape : '/' :: (ty.data ++ '/' :: (fid.data ++ '/' :: (title.data
        ++ '?' :: ("node-id=".data ++ X.data))))
      = ('/' :: (ty.data ++ '/' :: (fid.data ++ '/' :: title.data)))
        ++ '?' :: ("node-id=".data ++ X.data) := by
    simp [List.append_assoc]
  have hpathall : ∀ c ∈ '/' :: (ty.data ++ '/' :: (fid.data ++ '/' :: title.data)),
      (!(pathEnd c)) = true := by
    intro c hc
    rcases List.mem_cons.1 hc with rfl | hc
    · decide
    · rcases List.mem_append.1 hc with hc | hc
      · have := hty c hc
        simp only [pathEnd, Bool.not_eq_true']
        simp only [not_or] at this
        simp [this.2.1, this.2.2]
      · rcases List.mem_cons.1 hc with rfl | hc
        · decide
        · rcases List.mem_append.1 hc with hc | hc
          · have := hfid c hc
            simp only [pathEnd, Bool.not_eq_true']
            simp only [not_or] at this
            simp [this.2.1, this.2.2]
          · rcases List.mem_cons.1 hc with rfl | hc
            · decide
            · have := htitle c hc
              simp only [pathEnd, Bool.not_eq_true']
              simp only [not_or] at this
              simp [this.2.1, this.2.2]
  have hpath := takeWhile_append_stop (fun c => !(pathEnd c))
    ('/' :: (ty.data ++ '/' :: (fid.data ++ '/' :: title.data))) '?'
    ("node-id=".data ++ X.data) hpathall (by decide)
  have hqall : ∀ c ∈ "node-id=".data ++ X.data, (!(c == '#')) = true := by
    intro c hc
    rcases List.mem_append.1 hc with hc | hc
    · have : c ∈ "node-id=".data := hc
      fin_cases this <;> decide
    · have := hX c hc
      simpa using this
  have hq := takeWhile_all (fun c => !(c == '#')) ("node-id=".data ++ X.data) hqall
  simp only [parseURLModel, hurl]
  rw [hsch.1, hsch.2]
  simp only [hauth.1, hauth.2]
  rw [hshape]
  rw [hpath.1, hpath.2]
  simp only [hq]
  simp [charToLower, schemeCharOk, List.isEmpty]


theorem parseFigmaUrl_wellformed (ty fid title X : String)
    (hty : ty = "file" ∨ ty = "design")
    (hfid_ne : fid ≠ "")
    (hfid : ∀ c ∈ fid.data, ¬(c = '/' ∨ c = '?' ∨ c = '#'))
    (htitle_ne : title ≠ "")
    (htitle : ∀ c ∈ title.data, ¬(c = '/' ∨ c = '?' ∨ c = '#'))
    (hX : ∀ c ∈ X.data, ¬(c = '&' ∨ c = '=' ∨ c = '#' ∨ c = '+' ∨ c = '%'))
    (d : String) (hdec : decodeURIComponent title = some d) :
    parseFigmaUrl ("https://www.figma.com/" ++ ty ++ "/" ++ fid ++ "/" ++ title
        ++ "?node-id=" ++ X)
      = .ok ⟨some ty, some fid, some X, none, none, some d,
          String.mk ('/' :: (ty.data ++ '/' :: (fid.data ++ '/' :: title.data))),
          "https://www.figma.com/" ++ ty ++ "/" ++ fid ++ "/" ++ title ++ "?node-id=" ++ X,
          [("node-id", X)]⟩ := by
  have htyall : ∀ c ∈ ty.data, ¬(c = '/' ∨ c = '?' ∨ c = '#') := by
    rcases hty with rfl | rfl <;> decide
  have hurl : ("https://www.figma.com/" ++ ty ++ "/" ++ fid ++ "/" ++ title
        ++ "?node-id=" ++ X).data
      = "https".data ++ ':' :: '/' :: '/' :: ("www.figma.com".data
          ++ '/' :: (ty.data ++ '/' :: (fid.data ++ '/' :: (title.data
            ++ '?' :: ("node-id=".data ++ X.data))))) := by
    simp only [String.data_append, List.append_assoc]
    rfl
  have hws : jsStartsWith ("https://www.figma.com/" ++ ty ++ "/" ++ fid ++ "/" ++ title
      ++ "?node-id=" ++ X) "http" = true := by
    unfold jsStartsWith
    rw [hurl]
    exact listStartsWith_append "http".data "https".data _ (by decide)
  have hparse := parseURLModel_figma ty fid title X htyall hfid htitle
    (fun c hc => fun he => hX c hc (by simp [he]))
  have hsplit : splitOnChar '/' ('/' :: (ty.data ++ '/' :: (fid.data ++ '/' :: title.data)))
      = [[], ty.data, fid.data, title.data] := by
    have h0 : splitOnChar '/' ('/' :: (ty.data ++ '/' :: (fid.data ++ '/' :: title.data)))
        = [] :: splitOnChar '/' (ty.data ++ '/' :: (fid.data ++ '/' :: title.data)) := by
      simp [splitOnChar]
    rw [h0,
      splitOnChar_append '/' ty.data _ (fun c hc he => htyall c hc (Or.inl he)),
      splitOnChar_append '/' fid.data _ (fun c hc he => hfid c hc (Or.inl he)),
      splitOnChar_not_mem '/' title.data (fun c hc he => htitle c hc (Or.inl he))]
  have hQ : ("node-id=".data ++ X.data) = "node-id".data ++ '=' :: X.data := by
    simp only [show "node-id=".data = "node-id".data ++ ['='] from rfl, List.append_assoc]
    rfl
  have hkey := takeWhile_append_stop (fun c => !(c == '=')) "node-id".data '=' X.data
    (by decide) (by decide)
  have hXdec : formDecodeChars X.data = X.data :=
    formDecodeChars_id X.data (fun c hc =>
      ⟨fun he => hX c hc (by simp [he]), fun he => hX c hc (by simp [he])⟩)
  have hsl : searchParamsList ("node-id=".data ++ X.data) = [("node-id", X)] := by
    rw [hQ]
    unfold searchParamsList
    rw [splitOnChar_not_mem '&' _ (by
      intro x hx
      rcases List.mem_append.1 hx with hx | hx
      · have hx2 : x ∈ "node-id".data := hx
        fin_cases hx2 <;> decide
      · rcases List.mem_cons.1 hx with rfl | hx3
        · decide
        · exact fun he => hX x hx3 (by simp [he]))]
    have hne : (("node-id".data ++ '=' :: X.data).isEmpty) = false := by
      simp [List.isEmpty]
    simp only [List.filter_cons, List.filter_nil, hne, Bool.not_false, if_true]
    simp only [List.map_cons, List.map_nil]
    unfold splitPair
    rw [hkey.1, hkey.2]
    simp only []
    rw [show formDecodeChars "node-id".data = "node-id".data from by decide]
    simp only [if_true, hXdec]
  have hcontains : containsStr "www.figma.com" "figma.com" = true := by decide
  have htye : ty.data.isEmpty = false := by rcases hty with rfl | rfl <;> decide
  have hfe : fid.data.isEmpty = false := by
    cases h : fid.data with
    | nil => exact absurd h (data_ne_nil fid hfid_ne)
    | cons a as => rfl
  have hte : title.data.isEmpty = false := by
    cases h : title.data with
    | nil => exact absurd h (data_ne_nil title htitle_ne)
    | cons a as => rfl
  simp only [parseFigmaUrl, hws, if_true]
  rw [hparse]
  simp only [hcontains, Bool.not_true]
  simp only [Bool.false_eq_true, if_false, hsplit, List.filter_cons, List.filter_nil,
    List.isEmpty_nil, htye, hfe, hte, Bool.not_true, Bool.not_false, if_true, if_false,
    List.map_cons, List.map_nil]
  simp only [show String.mk ty.data = ty from rfl, show String.mk fid.data = fid from rfl,
    show String.mk title.data = title from rfl]
  simp only [List.getElem?_cons_succ, List.getElem?_cons_zero]
  rw [hdec]
  unfold searchParamsGet
  rw [hsl]
  simp only [List.find?]
  rfl

/-- C6: for a well-formed Figma URL https://www.figma.com/T/ID/TITLE?node-id=X,
parseFigmaUrl returns type = T, fileId = ID, title = decodeURIComponent TITLE and
nodeId = X; and a URL whose host does not contain figma.com is rejected with an
error. -/
theorem parseFigmaUrl_contract :
    (∀ (ty fid title X : String),
        (ty = "file" ∨ ty = "design") →
        fid ≠ "" → (∀ c ∈ fid.data, ¬(c = '/' ∨ c = '?' ∨ c = '#')) →
        title ≠ "" → (∀ c ∈ title.data, ¬(c = '/' ∨ c = '?' ∨ c = '#')) →
        (∀ c ∈ X.data, ¬(c = '&' ∨ c = '=' ∨ c = '#' ∨ c = '+' ∨ c = '%')) →
        ∀ d, decodeURIComponent title = some d →
        ∃ r, parseFigmaUrl ("https://www.figma.com/" ++ ty ++ "/" ++ fid ++ "/" ++ title
            ++ "?node-id=" ++ X) = .ok r
          ∧ r.type = some ty ∧ r.fileId = some fid ∧ r.title = some d ∧ r.nodeId = some X)
    ∧ (∀ (url : String) (u : UrlObj),
        parseURLModel (if jsStartsWith url "http" then url else "https://" ++ url) = some u →
        containsStr u.hostname "figma.com" = false →
        parseFigmaUrl url = .error "Invalid URL format") := by
  constructor
  · intro ty fid title X h1 h2 h3 h4 h5 h6 d h7
    exact ⟨_, parseFigmaUrl_wellformed ty fid title X h1 h2 h3 h4 h5 h6 d h7,
      rfl, rfl, rfl, rfl⟩
  · intro url u hu hc
    simp only [parseFigmaUrl]
    rw [hu]
    simp [hc]

theorem parseFigmaUrl_contract_witness :
    (("design" = "file" ∨ "design" = "design")
      ∧ "abc123" ≠ "" ∧ "My%20File" ≠ ""
      ∧ decodeURIComponent "My%20File" = some "My File")
    ∧ (∃ r, parseFigmaUrl "https://www.figma.com/design/abc123/My%20File?node-id=1-2"
          = .ok r ∧ r.type = some "design" ∧ r.fileId = some "abc123"
          ∧ r.title = some "My File" ∧ r.nodeId = some "1-2") := by
  constructor
  · exact ⟨Or.inr rfl, by decide, by decide, by decide⟩
  · have h := parseFigmaUrl_contract.1 "design" "abc123" "My%20File" "1-2"
      (Or.inr rfl) (by decide) (by decide) (by decide) (by decide) (by decide)
      "My File" (by decide)
    rw [show ("https://www.figma.com/" ++ "design" ++ "/" ++ "abc123" ++ "/" ++ "My%20File"
        ++ "?node-id=" ++ "1-2" : String)
      = "https://www.figma.com/design/abc123/My%20File?node-id=1-2" from rfl] at h
    exact h

end Fig4ai
